import Mathlib

/-
Verification of the buffer-pool core of a disk-oriented storage engine:
the LRU-K replacer (lru_k_replacer.cpp), the buffer pool manager
(buffer_pool_manager.cpp) and the page-guard family (page_guard.cpp).
The C++ sources are shallowly embedded: machine integers become Nat/Int
with explicit wrap where the code relies on it, std::unordered_map and
std::list become association lists and lists, fallible code returns
Except, and the disk is an explicit page-id-indexed store.
-/

namespace BusTub

/-- The value of std::numeric_limits of size_t :: max(), that is 2^64 - 1. -/
def SIZE_MAX : Nat := 2 ^ 64 - 1

/-- static_cast of a (32-bit signed) frame_id_t to the 64-bit unsigned size_t:
the usual wrap-around conversion, i.e. reduction modulo 2^64 of the
integer value. -/
def castSizeT (f : Int) : Nat := (f % (2 : Int) ^ 64).toNat

/-! ### Association lists

std::unordered_map is embedded as an association list operated on by key:
lookup, in-place update / insert, and erase of the (first) entry of a key.
All the maps the source builds are built by these operations from the empty
map, so every key occurs at most once. -/

/-- Lookup of a key in an association list (map::find). -/
def alookup {α : Type} (s : List (Int × α)) (key : Int) : Option α :=
  match s with
  | [] => none
  | (g, n) :: t => if g = key then some n else alookup t key

/-- Update the entry of a key in place, inserting it at the end when absent
(map::operator[] followed by assignment). -/
def aset {α : Type} (s : List (Int × α)) (key : Int) (v : α) : List (Int × α) :=
  match s with
  | [] => [(key, v)]
  | (g, n) :: t => if g = key then (key, v) :: t else (g, n) :: aset t key v

/-- Erase the entry of a key (map::erase); no-op when the key is absent. -/
def aerase {α : Type} (s : List (Int × α)) (key : Int) : List (Int × α) :=
  match s with
  | [] => []
  | (g, n) :: t => if g = key then t else (g, n) :: aerase t key

/-! ### LRU-K replacer (lru_k_replacer.cpp) -/

/-- The error conditions raised by the replacer via bustub::Exception. -/
inductive RepErr where
  | invalidFrameId
  | removeNonEvictable
  deriving DecidableEq, Repr

/-- LRUKNode: the last up-to-K access timestamps of one frame (oldest first),
the evictable flag, and the frame id.  Value-initialisation (the C++
expression LRUKNode with empty braces) gives the empty history, a false
flag and frame id 0. -/
structure LRUKNode where
  history : List Nat
  is_evictable : Bool
  fid : Int
  deriving DecidableEq, Repr

/-- The value-initialised LRUKNode. -/
def LRUKNode.init : LRUKNode := ⟨[], false, 0⟩

/-- LRUKReplacer state: node_store_, current_timestamp_, curr_size_,
replacer_size_ and k_. The sizes and timestamps are size_t values kept in
Nat with explicit mod-2^64 wrap where the code can wrap. -/
structure LRUKReplacer where
  node_store : List (Int × LRUKNode)
  current_timestamp : Nat
  curr_size : Nat
  replacer_size : Nat
  k : Nat
  deriving DecidableEq, Repr

/-- The constructor LRUKReplacer(num_frames, k): empty store, zero
timestamp and size. -/
def LRUKReplacer.mkInit (num_frames k : Nat) : LRUKReplacer :=
  ⟨[], 0, 0, num_frames, k⟩

/-- The decrement of a size_t counter (wraps at zero). -/
def sizeDec (n : Nat) : Nat := (n + SIZE_MAX) % 2 ^ 64

/-- The increment of a size_t counter (wraps at 2^64 - 1). -/
def sizeInc (n : Nat) : Nat := (n + 1) % 2 ^ 64

/-- The front of a history list; the source calls history_.front() only on
nonempty histories, the default is irrelevant there. -/
def hfront (l : List Nat) : Nat := l.headD 0

/-- The k-distance computed inside LRUKReplacer::Evict: current_timestamp_
minus history_.front() when the history holds at least k entries, and the
size_t maximum (standing for plus infinity) otherwise. -/
def kDist (k cur : Nat) (n : LRUKNode) : Nat :=
  if k ≤ n.history.length then cur - hfront n.history else SIZE_MAX

/-- The accumulator of the selection loop in LRUKReplacer::Evict: the
candidate victim, the oldest_timestamp and max_k_distance trackers. -/
structure EvictAcc where
  victim : Option Int
  oldest : Nat
  maxkd : Nat
  deriving DecidableEq, Repr

/-- One iteration of the selection loop in LRUKReplacer::Evict. -/
def evictStep (k cur : Nat) (acc : EvictAcc) (e : Int × LRUKNode) : EvictAcc :=
  if e.2.is_evictable = false then acc
  else if acc.maxkd < kDist k cur e.2 ∨
      (kDist k cur e.2 = acc.maxkd ∧ hfront e.2.history < acc.oldest) then
    ⟨some e.1, hfront e.2.history, kDist k cur e.2⟩
  else acc

/-- LRUKReplacer::Evict: run the selection loop over node_store_ starting
from (no victim, SIZE_MAX, 0); on success erase the victim node and
decrement curr_size_, otherwise leave the state unchanged. -/
def LRUKReplacer.evict (r : LRUKReplacer) : Option Int × LRUKReplacer :=
  match (r.node_store.foldl (evictStep r.k r.current_timestamp) ⟨none, SIZE_MAX, 0⟩).victim with
  | some f =>
      (some f, { r with node_store := aerase r.node_store f, curr_size := sizeDec r.curr_size })
  | none => (none, r)

/-- LRUKReplacer::RecordAccess: throws on static_cast to size_t of the frame
id being strictly greater than replacer_size_; otherwise increments
current_timestamp_, creates the node if absent, appends the new timestamp,
trims the history from the front to at most k_ entries, and stores the
frame id in the node. -/
def LRUKReplacer.recordAccess (r : LRUKReplacer) (f : Int) : Except RepErr LRUKReplacer :=
  if r.replacer_size < castSizeT f then .error .invalidFrameId
  else
    let ts := sizeInc r.current_timestamp
    let store :=
      match alookup r.node_store f with
      | none => aset r.node_store f LRUKNode.init
      | some _ => r.node_store
    let n := (alookup store f).getD LRUKNode.init
    let h1 := n.history ++ [ts]
    let h2 := if r.k < h1.length then h1.tail else h1
    .ok { r with current_timestamp := ts,
                 node_store := aset store f { n with history := h2, fid := f } }

/-- LRUKReplacer::SetEvictable: throws on the same out-of-range condition as
RecordAccess; no-op when the frame has no node; flips the evictable flag
and adjusts curr_size_ only on a real state change. -/
def LRUKReplacer.setEvictable (r : LRUKReplacer) (f : Int) (e : Bool) : Except RepErr LRUKReplacer :=
  if r.replacer_size < castSizeT f then .error .invalidFrameId
  else
    match alookup r.node_store f with
    | none => .ok r
    | some n =>
        if n.is_evictable ≠ e then
          .ok { r with node_store := aset r.node_store f { n with is_evictable := e },
                       curr_size := if e then sizeInc r.curr_size else sizeDec r.curr_size }
        else .ok r

/-- LRUKReplacer::Remove: throws on the out-of-range condition; silently
succeeds when the frame has no node; throws when the node is not evictable;
otherwise erases the node and decrements curr_size_. -/
def LRUKReplacer.remove (r : LRUKReplacer) (f : Int) : Except RepErr LRUKReplacer :=
  if r.replacer_size < castSizeT f then .error .invalidFrameId
  else
    match alookup r.node_store f with
    | none => .ok r
    | some n =>
        if n.is_evictable = false then .error .removeNonEvictable
        else .ok { r with node_store := aerase r.node_store f, curr_size := sizeDec r.curr_size }

/-- LRUKReplacer::Size. -/
def LRUKReplacer.size (r : LRUKReplacer) : Nat := r.curr_size

/-- Whether a frame is currently marked evictable in the replacer: its node
exists and carries a true evictable flag. -/
def evictableB (r : LRUKReplacer) (f : Int) : Bool :=
  match alookup r.node_store f with
  | some n => n.is_evictable
  | none => false

/-- Whether an Except value is a success. -/
def exOk {α : Type} (e : Except RepErr α) : Bool :=
  match e with
  | .ok _ => true
  | .error _ => false

/-! ### Scenario drivers (used by the concrete LRU-K scenario) -/

/-- Run a sequence of RecordAccess calls; the scenario only uses in-range
frame ids, on which the calls cannot fail, so failures keep the state. -/
def raList (r : LRUKReplacer) (fs : List Int) : LRUKReplacer :=
  fs.foldl (fun s f => (s.recordAccess f).toOption.getD s) r

/-- Run a sequence of SetEvictable calls; same remark as for raList. -/
def seList (r : LRUKReplacer) (fs : List Int) (e : Bool) : LRUKReplacer :=
  fs.foldl (fun s f => (s.setEvictable f e).toOption.getD s) r

/-- Run n successive Evict calls and collect their results. -/
def evictN : Nat → LRUKReplacer → List (Option Int)
  | 0, _ => []
  | Nat.succ m, r =>
      match r.evict with
      | (v, r2) => v :: evictN m r2

/-- The replacer state of scenario S1: pool_size 7, K 2, access sequence
1,2,3,4,5,6,1,2,3,4,5,6,1 and all accessed frames marked evictable. -/
def s1State : LRUKReplacer :=
  seList (raList (LRUKReplacer.mkInit 7 2) [1,2,3,4,5,6,1,2,3,4,5,6,1]) [1,2,3,4,5,6] true

/-- A small concrete replacer with two evictable nodes, one with a full
K-history (k-distance 1) and one short-history node (k-distance infinite),
used to instantiate the eviction-selection theorem. -/
def twoNodeReplacer : LRUKReplacer :=
  ⟨[(1, ⟨[1, 2], true, 1⟩), (2, ⟨[3], true, 2⟩)], 3, 2, 7, 2⟩

/-! ### Pages and the buffer pool manager (buffer_pool_manager.cpp) -/

/-- INVALID_PAGE_ID. -/
def INVALID_PAGE_ID : Int := -1

/-- A frame of the pool: the page id, pin count and dirty flag of the page
it holds, and the payload bytes abstracted to one Nat (the source only
copies, zeroes and compares payloads whole). The pin count is a C int,
modelled as an unbounded Int (its overflow is undefined behaviour in the
source and is not modelled). -/
structure Page where
  page_id : Int
  pin_count : Int
  is_dirty : Bool
  data : Nat
  deriving DecidableEq, Repr

/-- Modelled from the spec: the initial frame state produced by the Page
array allocation (page.h is not among the sources): empty sentinel page id,
zero pin count, clean, zeroed payload. -/
def Page.init : Page := ⟨INVALID_PAGE_ID, 0, false, 0⟩

/-- BufferPoolManager state: the frame array pages_, the replacer, the page
table, the free list, the monotone next_page_id_ counter, and the disk
contents reached through the disk scheduler, as a page-id-indexed store. -/
structure BufferPoolManager where
  pool_size : Nat
  pages : List Page
  replacer : LRUKReplacer
  page_table : List (Int × Int)
  free_list : List Int
  next_page_id : Int
  disk : List (Int × Nat)
  deriving DecidableEq, Repr

/-- Read the frame at a frame id (pages_ indexing); out-of-range indexing
never happens in the source and returns the initial page here. -/
def getPage (s : BufferPoolManager) (f : Int) : Page :=
  s.pages.getD f.toNat Page.init

/-- Write the frame at a frame id. -/
def setPage (s : BufferPoolManager) (f : Int) (p : Page) : BufferPoolManager :=
  { s with pages := s.pages.set f.toNat p }

/-- BufferPoolManager::WriteFrame: schedule a write of the frame payload to
the given page id and wait for it. -/
def writeFrame (s : BufferPoolManager) (f : Int) (pid : Int) : BufferPoolManager :=
  { s with disk := aset s.disk pid (getPage s f).data }

/-- BufferPoolManager::ReadFrame: schedule a read of the given page id into
the frame payload and wait for it; a page never written reads as zeroes. -/
def readFrame (s : BufferPoolManager) (f : Int) (pid : Int) : BufferPoolManager :=
  setPage s f { getPage s f with data := (alookup s.disk pid).getD 0 }

/-- The BufferPoolManager constructor: pool_size frames all in the free
list, an LRUKReplacer over pool_size frames, empty page table. -/
def BufferPoolManager.mkInit (pool_size k : Nat) : BufferPoolManager :=
  { pool_size := pool_size
    pages := List.replicate pool_size Page.init
    replacer := LRUKReplacer.mkInit pool_size k
    page_table := []
    free_list := (List.range pool_size).map Int.ofNat
    next_page_id := 0
    disk := [] }

/-- The frame-acquisition step shared by NewPage and FetchPage: pop the
free list if nonempty; otherwise ask the replacer for a victim, erase the
page-table entry of the page the victim frame holds, and write that page
back when dirty. Returns none exactly when the free list is empty and no
evictable victim exists, leaving the state unchanged. -/
def takeFrame (s : BufferPoolManager) : Option (Int × BufferPoolManager) :=
  match s.free_list with
  | f :: rest => some (f, { s with free_list := rest })
  | [] =>
      match s.replacer.evict with
      | (none, _) => none
      | (some f, r2) =>
          let s1 := { s with replacer := r2 }
          let oldPid := (getPage s1 f).page_id
          let s2 := { s1 with page_table := aerase s1.page_table oldPid }
          let s3 := if (getPage s2 f).is_dirty then writeFrame s2 f oldPid else s2
          some (f, s3)

/-- The installation tail of BufferPoolManager::NewPage on the acquired
frame: allocate the next page id, reset the frame to the new page with
pin count 1 and clean, map the id in the page table, mark the frame
non-evictable and record the access. -/
def newPageInstall (s1 : BufferPoolManager) (f : Int) :
    Except RepErr (Option Int × BufferPoolManager) :=
  let pid := s1.next_page_id
  let s2 := { s1 with next_page_id := pid + 1 }
  let s3 := setPage s2 f { page_id := pid, pin_count := 1, is_dirty := false, data := 0 }
  let s4 := { s3 with page_table := aset s3.page_table pid f }
  match s4.replacer.setEvictable f false with
  | .error e => .error e
  | .ok r1 =>
      match r1.recordAccess f with
      | .error e => .error e
      | .ok r2 => .ok (some pid, { s4 with replacer := r2 })

/-- BufferPoolManager::NewPage: acquire a frame (free list first, else
eviction with page-table erase and dirty writeback), then run the
installation tail. Returns none when no frame is obtainable. -/
def BufferPoolManager.newPage (s : BufferPoolManager) :
    Except RepErr (Option Int × BufferPoolManager) :=
  match takeFrame s with
  | none => .ok (none, s)
  | some (f, s1) => newPageInstall s1 f

/-- BufferPoolManager::FetchPage: on a page-table hit, mark the frame
non-evictable when its pin count was zero, increment the pin count and
record the access; on a miss, acquire a frame as NewPage does, zero it,
read the page from disk, install it pinned and clean, map it, record the
access and mark the frame non-evictable. Returns none when no frame is
obtainable. -/
def BufferPoolManager.fetchPage (s : BufferPoolManager) (pid : Int) :
    Except RepErr (Option Int × BufferPoolManager) :=
  match alookup s.page_table pid with
  | some f =>
      let pg := getPage s f
      match (if pg.pin_count = 0 then s.replacer.setEvictable f false else .ok s.replacer) with
      | .error e => .error e
      | .ok r1 =>
          let s1 := setPage { s with replacer := r1 } f { pg with pin_count := pg.pin_count + 1 }
          match s1.replacer.recordAccess f with
          | .error e => .error e
          | .ok r2 => .ok (some pid, { s1 with replacer := r2 })
  | none =>
      match takeFrame s with
      | none => .ok (none, s)
      | some (f, s1) =>
          let s2 := setPage s1 f { getPage s1 f with data := 0 }
          let s3 := readFrame s2 f pid
          let s4 := setPage s3 f
            { getPage s3 f with page_id := pid, pin_count := 1, is_dirty := false }
          let s5 := { s4 with page_table := aset s4.page_table pid f }
          match s5.replacer.recordAccess f with
          | .error e => .error e
          | .ok r1 =>
              match r1.setEvictable f false with
              | .error e => .error e
              | .ok r2 => .ok (some pid, { s5 with replacer := r2 })

/-- BufferPoolManager::UnpinPage: false when the page is not resident or
its pin count is not positive; otherwise OR-accumulate the dirty hint,
decrement the pin count, and mark the frame evictable when it reaches
zero. -/
def BufferPoolManager.unpinPage (s : BufferPoolManager) (pid : Int) (d : Bool) :
    Except RepErr (Bool × BufferPoolManager) :=
  match alookup s.page_table pid with
  | none => .ok (false, s)
  | some f =>
      let pg := getPage s f
      if pg.pin_count ≤ 0 then .ok (false, s)
      else
        let pg2 := { pg with is_dirty := d || pg.is_dirty, pin_count := pg.pin_count - 1 }
        let s1 := setPage s f pg2
        if pg2.pin_count = 0 then
          match s1.replacer.setEvictable f true with
          | .error e => .error e
          | .ok r1 => .ok (true, { s1 with replacer := r1 })
        else .ok (true, s1)

/-- BufferPoolManager::FlushPage: false when the page is not resident;
otherwise write the frame to disk unconditionally, clear the dirty flag
and return true. -/
def BufferPoolManager.flushPage (s : BufferPoolManager) (pid : Int) :
    Bool × BufferPoolManager :=
  match alookup s.page_table pid with
  | none => (false, s)
  | some f =>
      let s1 := writeFrame s f pid
      let s2 := setPage s1 f { getPage s1 f with is_dirty := false }
      (true, s2)

/-- BufferPoolManager::FlushAllPages: flush every page-table entry. -/
def BufferPoolManager.flushAllPages (s : BufferPoolManager) : BufferPoolManager :=
  (s.page_table.map Prod.fst).foldl (fun t p => (t.flushPage p).2) s

/-- BufferPoolManager::DeletePage: true when the page is not resident;
false when its pin count is positive; otherwise remove the frame from the
replacer, erase the page-table entry, reset the frame to the invalid page
id, clean and zeroed, and append the frame to the free list. -/
def BufferPoolManager.deletePage (s : BufferPoolManager) (pid : Int) :
    Except RepErr (Bool × BufferPoolManager) :=
  match alookup s.page_table pid with
  | none => .ok (true, s)
  | some f =>
      let pg := getPage s f
      if 0 < pg.pin_count then .ok (false, s)
      else
        match s.replacer.remove f with
        | .error e => .error e
        | .ok r1 =>
            let s1 := { s with replacer := r1, page_table := aerase s.page_table pid }
            let s2 := setPage s1 f { pg with data := 0, page_id := INVALID_PAGE_ID, is_dirty := false }
            .ok (true, { s2 with free_list := s2.free_list ++ [f] })

/-! ### Operation sequences and reachability -/

/-- One public buffer pool manager operation. -/
inductive Op where
  | newPage : Op
  | fetchPage : Int → Op
  | unpinPage : Int → Bool → Op
  | flushPage : Int → Op
  | deletePage : Int → Op
  | flushAll : Op

/-- Apply one operation, keeping only the post-state. -/
def applyOp (s : BufferPoolManager) (op : Op) : Except RepErr BufferPoolManager :=
  match op with
  | .newPage => (s.newPage).map Prod.snd
  | .fetchPage pid => (s.fetchPage pid).map Prod.snd
  | .unpinPage pid d => (s.unpinPage pid d).map Prod.snd
  | .flushPage pid => .ok (s.flushPage pid).2
  | .deletePage pid => (s.deletePage pid).map Prod.snd
  | .flushAll => .ok s.flushAllPages

/-- The states reachable from a freshly constructed pool by successful
public operations. -/
inductive Reachable (pool_size k : Nat) : BufferPoolManager → Prop where
  | init : Reachable pool_size k (BufferPoolManager.mkInit pool_size k)
  | step {s s2 : BufferPoolManager} {op : Op} :
      Reachable pool_size k s → applyOp s op = .ok s2 → Reachable pool_size k s2

/-! ### Page guards (page_guard.cpp) -/

/-- One externally visible effect of the guard code: latch acquisition and
release on the page of a given page id, and UnpinPage calls through the
back-reference to the manager. -/
inductive GuardEffect where
  | rLatch : Int → GuardEffect
  | wLatch : Int → GuardEffect
  | rUnlatch : Int → GuardEffect
  | wUnlatch : Int → GuardEffect
  | unpin : Int → Bool → GuardEffect
  deriving DecidableEq, Repr

/-- BasicPageGuard: the nullable manager back-reference bpm_ (kept as the
Bool saying whether it is non-null), the nullable page pointer page_ (kept
as the page id it designates when non-null), and the dirty flag. -/
structure BasicPageGuard where
  bpm_ : Bool
  page_ : Option Int
  is_dirty_ : Bool
  deriving DecidableEq, Repr

/-- Modelled from the spec: the default member initialisers of the guards
(page_guard.h is not among the sources); a default-constructed guard is
empty and owns nothing. -/
def BasicPageGuard.init : BasicPageGuard := ⟨false, none, false⟩

/-- A guard is empty when either pointer is null (the condition every Drop
checks). -/
def BasicPageGuard.isEmptyG (g : BasicPageGuard) : Bool :=
  !g.bpm_ || (g.page_ == none)

/-- BasicPageGuard::Drop: no-op on an empty guard; otherwise one UnpinPage
call with the page id and the dirty flag, then null both pointers. -/
def BasicPageGuard.dropG (g : BasicPageGuard) : BasicPageGuard × List GuardEffect :=
  if g.isEmptyG then (g, [])
  else ({ g with bpm_ := false, page_ := none },
        [GuardEffect.unpin (g.page_.getD 0) g.is_dirty_])

/-- The BasicPageGuard move constructor as written: the body only nulls the
source; the fields of the constructed guard keep their default member
initialisers. Returns (constructed guard, moved-from source). -/
def BasicPageGuard.moveCtor (that : BasicPageGuard) : BasicPageGuard × BasicPageGuard :=
  (BasicPageGuard.init, { that with bpm_ := false, page_ := none })

/-- ReadPageGuard holds one BasicPageGuard. -/
structure ReadPageGuard where
  guard_ : BasicPageGuard
  deriving DecidableEq, Repr

/-- WritePageGuard holds one BasicPageGuard. -/
structure WritePageGuard where
  guard_ : BasicPageGuard
  deriving DecidableEq, Repr

/-- The ReadPageGuard(bpm, page) constructor as written: the body is empty,
so guard_ keeps its default-constructed (empty) value whatever the
arguments are. -/
def ReadPageGuard.ctor (_bpmNonNull : Bool) (_page : Option Int) : ReadPageGuard :=
  ⟨BasicPageGuard.init⟩

/-- The WritePageGuard(bpm, page) constructor as written: same remark. -/
def WritePageGuard.ctor (_bpmNonNull : Bool) (_page : Option Int) : WritePageGuard :=
  ⟨BasicPageGuard.init⟩

/-- ReadPageGuard::Drop: no-op when the inner guard is empty; otherwise
RUnlatch the page, then run the basic Drop (which unpins). -/
def ReadPageGuard.dropG (g : ReadPageGuard) : ReadPageGuard × List GuardEffect :=
  if g.guard_.isEmptyG then (g, [])
  else
    let (b, effs) := g.guard_.dropG
    (⟨b⟩, GuardEffect.rUnlatch (g.guard_.page_.getD 0) :: effs)

/-- WritePageGuard::Drop: no-op when the inner guard is empty; otherwise
WUnlatch the page, then run the basic Drop. -/
def WritePageGuard.dropG (g : WritePageGuard) : WritePageGuard × List GuardEffect :=
  if g.guard_.isEmptyG then (g, [])
  else
    let (b, effs) := g.guard_.dropG
    (⟨b⟩, GuardEffect.wUnlatch (g.guard_.page_.getD 0) :: effs)

/-- BufferPoolManager::FetchPageRead: fetch the page; on failure an empty
guard and no effects; on success RLatch the page and construct a
ReadPageGuard from (this, page). The effect list records the latch
operations the call performs. -/
def BufferPoolManager.fetchPageRead (s : BufferPoolManager) (pid : Int) :
    Except RepErr (ReadPageGuard × List GuardEffect × BufferPoolManager) :=
  match s.fetchPage pid with
  | .error e => .error e
  | .ok (none, s1) => .ok (⟨BasicPageGuard.init⟩, [], s1)
  | .ok (some _, s1) => .ok (ReadPageGuard.ctor true (some pid), [GuardEffect.rLatch pid], s1)

/-- BufferPoolManager::FetchPageWrite: same shape with the write latch. -/
def BufferPoolManager.fetchPageWrite (s : BufferPoolManager) (pid : Int) :
    Except RepErr (WritePageGuard × List GuardEffect × BufferPoolManager) :=
  match s.fetchPage pid with
  | .error e => .error e
  | .ok (none, s1) => .ok (⟨BasicPageGuard.init⟩, [], s1)
  | .ok (some _, s1) => .ok (WritePageGuard.ctor true (some pid), [GuardEffect.wLatch pid], s1)

/-- A one-frame pool holding page 0 pinned once: the state after one
NewPage call on a freshly constructed pool of size 1 (the error and
failure branches are unreachable here). -/
def poolOnePage : BufferPoolManager :=
  match (BufferPoolManager.mkInit 1 2).newPage with
  | .ok (_, s) => s
  | _ => BufferPoolManager.mkInit 1 2

/-- What FetchPageRead at page 0 on poolOnePage yields: whether the guard
is empty, the effects of the call itself, and the effects of dropping the
returned guard. -/
def readGuardProbe : Bool × List GuardEffect × List GuardEffect :=
  match poolOnePage.fetchPageRead 0 with
  | .ok (g, effs, _) => (g.guard_.isEmptyG, effs, (g.dropG).2)
  | .error _ => (false, [], [])

/-- Same probe for FetchPageWrite. -/
def writeGuardProbe : Bool × List GuardEffect × List GuardEffect :=
  match poolOnePage.fetchPageWrite 0 with
  | .ok (g, effs, _) => (g.guard_.isEmptyG, effs, (g.dropG).2)
  | .error _ => (false, [], [])

/-- A live basic guard: non-null manager and page references, dirty. -/
def liveGuard : BasicPageGuard := ⟨true, some 5, true⟩

/-- poolOnePage after one clean unpin of page 0: page 0 resident with pin
count zero and its frame evictable. -/
def poolOnePageUnpinned : BufferPoolManager :=
  match poolOnePage.unpinPage 0 false with
  | .ok (_, s) => s
  | _ => poolOnePage

/-- A freshly constructed pool of two frames with K = 2. -/
def pool2 : BufferPoolManager := BufferPoolManager.mkInit 2 2

/-- The accumulator of the selection loop is the correct selection for the
prefix of node entries already processed: either nothing evictable was
seen and the accumulator still holds its initial value, or the victim is
an evictable seen entry whose k-distance is maximal among the seen
evictable entries with the smallest front timestamp among the ties. -/
def accGood (k c : Nat) (P : List (Int × LRUKNode)) (a : EvictAcc) : Prop :=
  (a.victim = none ∧ a.oldest = SIZE_MAX ∧ a.maxkd = 0 ∧
    ∀ e ∈ P, e.2.is_evictable = false) ∨
  (∃ v n, a.victim = some v ∧ (v, n) ∈ P ∧ n.is_evictable = true ∧
    a.maxkd = kDist k c n ∧ a.oldest = hfront n.history ∧
    ∀ e ∈ P, e.2.is_evictable = true →
      kDist k c e.2 < a.maxkd ∨
        (kDist k c e.2 = a.maxkd ∧ a.oldest ≤ hfront e.2.history))

/-- The inductive state invariant of the buffer pool manager underlying
the pinned-frames-are-never-evicted property: frame ids stored anywhere
are nonnegative, node keys are unique, pin counts are nonnegative, and a
frame with a positive pin count is never marked evictable. -/
structure Inv (s : BufferPoolManager) : Prop where
  free_nonneg : ∀ f ∈ s.free_list, 0 ≤ f
  pt_nonneg : ∀ e ∈ s.page_table, 0 ≤ e.2
  store_nonneg : ∀ k ∈ s.replacer.node_store.map Prod.fst, 0 ≤ k
  store_nodup : (s.replacer.node_store.map Prod.fst).Nodup
  pin_nonneg : ∀ f : Int, 0 ≤ (getPage s f).pin_count
  pinned_not_ev : ∀ f : Int, 0 < (getPage s f).pin_count → evictableB s.replacer f = false

end BusTub

/-! ## Theorems -/

set_option maxRecDepth 100000

namespace BusTub

/-- C1. The claim states that every guard produced by a successful
FetchPageRead or FetchPageWrite is non-empty and that dropping it releases
the latch and unpins exactly once. The code contradicts it: the
ReadPageGuard(bpm, page) and WritePageGuard(bpm, page) constructor bodies
are empty, so FetchPageRead/FetchPageWrite acquire the latch and the pin
(middle component: the call does emit the latch effect) but hand back an
empty guard whose Drop is a no-op (last component: dropping emits no
unlatch and no unpin); the obligations are leaked, which contradicts the
RAII design the sources themselves implement everywhere else. -/
theorem fetch_guard_ctor_leaks_pin_and_latch :
    readGuardProbe = (true, [GuardEffect.rLatch 0], []) ∧
    writeGuardProbe = (true, [GuardEffect.wLatch 0], []) := by decide

/-- C2. The claim states that move-constructing a guard from a live guard
transfers ownership. The code contradicts it: the BasicPageGuard move
constructor only nulls the source and never copies its fields, so from the
live source liveGuard the constructed guard comes out default-initialised
(hence empty, its drop a no-op) and the source is emptied as well: the pin
obligation is lost, contradicting the spec and the move-assignment
operator of the same file, which does copy the three fields. -/
theorem basic_move_ctor_loses_ownership :
    (BasicPageGuard.moveCtor liveGuard).1 = BasicPageGuard.init ∧
    (BasicPageGuard.moveCtor liveGuard).1.isEmptyG = true ∧
    ((BasicPageGuard.moveCtor liveGuard).1.dropG).2 = [] ∧
    (BasicPageGuard.moveCtor liveGuard).2.isEmptyG = true ∧
    liveGuard.isEmptyG = false := by decide

/-- C4 counterexample. On the S1 scenario state (pool 7, K 2, accesses
1,2,3,4,5,6,1,2,3,4,5,6,1, all six frames evictable) the first Evict does
not return frame 6 as the claim asserts: every frame has K = 2 recorded
accesses, and frame 2 has the largest k-distance 13 - 2 = 11, so Evict
returns 2. -/
theorem s1_first_evict_not_six :
    (s1State.evict).1 = some 2 ∧ (s1State.evict).1 ≠ some 6 := by decide

/-- C4 amended. On the S1 scenario state the successive Evict calls return
2, 3, 4, 5, 6, 1 (decreasing k-distance) and then fail; frame 7, never
accessed, is never returned. -/
theorem s1_evict_order :
    evictN 7 s1State = [some 2, some 3, some 4, some 5, some 6, some 1, none] ∧
    some 7 ∉ evictN 7 s1State := by decide

/-- C6 counterexample. With replacer_size = 7 the frame id 7 lies outside
[0, 7), yet RecordAccess, SetEvictable and Remove all accept it: the
source checks the cast id with strictly-greater against replacer_size_, so
id = replacer_size_ passes. -/
theorem replacer_accepts_frame_eq_size :
    exOk ((LRUKReplacer.mkInit 7 2).recordAccess 7) = true ∧
    exOk ((LRUKReplacer.mkInit 7 2).setEvictable 7 true) = true ∧
    exOk ((LRUKReplacer.mkInit 7 2).remove 7) = true ∧
    ¬ ((0 : Int) ≤ 7 ∧ (7 : Int) < 7) := by decide

/-- The bound check of the replacer, characterised on 32-bit frame ids
against a replacer size that fits a size_t: the cast id exceeds the bound
exactly when the id is negative (it wraps to at least 2^64 - 2^31) or
exceeds the size. -/
theorem castSizeT_gt_iff (f : Int) (n : Nat) (h1 : -(2 ^ 31) ≤ f) (h2 : f < 2 ^ 31)
    (h3 : n ≤ 2 ^ 63) : (n < castSizeT f) ↔ (f < 0 ∨ (n : Int) < f) := by
  have hpow : (2 : Int) ^ 64 = 18446744073709551616 := by norm_num
  unfold castSizeT
  rw [hpow]
  omega

/-- A nonnegative 32-bit id below the bound passes the cast check. -/
theorem castSizeT_le (f : Int) (n : Nat) (h0 : 0 ≤ f) (h1 : f < (n : Int))
    (h2 : n ≤ 2 ^ 64) : castSizeT f ≤ n := by
  have hpow : (2 : Int) ^ 64 = 18446744073709551616 := by norm_num
  unfold castSizeT
  rw [hpow]
  omega

/-! ### Association list lemmas -/

theorem alookup_aset_self {α : Type} (s : List (Int × α)) (k : Int) (v : α) :
    alookup (aset s k v) k = some v := by
  induction s with
  | nil => simp [aset, alookup]
  | cons e t ih =>
      obtain ⟨g, n⟩ := e
      by_cases h : g = k
      · simp [aset, h, alookup]
      · simp [aset, h, alookup, ih]

theorem alookup_aset_ne {α : Type} (s : List (Int × α)) (k g : Int) (v : α)
    (h : g ≠ k) : alookup (aset s k v) g = alookup s g := by
  induction s with
  | nil => simp [aset, alookup, Ne.symm h]
  | cons e t ih =>
      obtain ⟨g2, n⟩ := e
      by_cases h2 : g2 = k
      · subst h2
        simp [aset, alookup, Ne.symm h]
      · simp only [aset, if_neg h2]
        by_cases h3 : g2 = g
        · simp [alookup, h3]
        · simp [alookup, h3, ih]

theorem alookup_aerase_ne {α : Type} (s : List (Int × α)) (k g : Int)
    (h : g ≠ k) : alookup (aerase s k) g = alookup s g := by
  induction s with
  | nil => simp [aerase]
  | cons e t ih =>
      obtain ⟨g2, n⟩ := e
      by_cases h2 : g2 = k
      · subst h2
        simp [aerase, alookup, Ne.symm h]
      · simp only [aerase, if_neg h2]
        by_cases h3 : g2 = g
        · simp [alookup, h3]
        · simp [alookup, h3, ih]

theorem alookup_eq_none_iff {α : Type} (s : List (Int × α)) (k : Int) :
    alookup s k = none ↔ k ∉ s.map Prod.fst := by
  induction s with
  | nil => simp [alookup]
  | cons e t ih =>
      obtain ⟨g, n⟩ := e
      by_cases h : g = k
      · simp [alookup, h]
      · simp [alookup, h, ih, Ne.symm h]

theorem alookup_aerase_self_of_nodup {α : Type} (s : List (Int × α)) (k : Int)
    (h : (s.map Prod.fst).Nodup) : alookup (aerase s k) k = none := by
  induction s with
  | nil => simp [aerase, alookup]
  | cons e t ih =>
      obtain ⟨g, n⟩ := e
      simp only [List.map_cons, List.nodup_cons] at h
      by_cases h2 : g = k
      · subst h2
        simp only [aerase, if_pos rfl]
        exact (alookup_eq_none_iff t g).mpr h.1
      · simp only [aerase, if_neg h2, alookup, if_neg h2]
        exact ih h.2

theorem mem_aset {α : Type} (s : List (Int × α)) (k g : Int) (v n : α)
    (h : (g, n) ∈ aset s k v) : (g, n) ∈ s ∨ (g = k ∧ n = v) := by
  induction s with
  | nil =>
      simp [aset] at h
      exact Or.inr ⟨h.1, h.2⟩
  | cons e t ih =>
      obtain ⟨g2, n2⟩ := e
      by_cases h2 : g2 = k
      · simp only [aset, if_pos h2] at h
        rcases List.mem_cons.mp h with h3 | h3
        · exact Or.inr ⟨congrArg Prod.fst h3, congrArg Prod.snd h3⟩
        · exact Or.inl (List.mem_cons_of_mem _ h3)
      · simp only [aset, if_neg h2] at h
        rcases List.mem_cons.mp h with h3 | h3
        · exact Or.inl (List.mem_cons.mpr (Or.inl h3))
        · rcases ih h3 with h4 | h4
          · exact Or.inl (List.mem_cons_of_mem _ h4)
          · exact Or.inr h4

theorem mem_aerase {α : Type} (s : List (Int × α)) (k g : Int) (n : α)
    (h : (g, n) ∈ aerase s k) : (g, n) ∈ s := by
  induction s with
  | nil => simp [aerase] at h
  | cons e t ih =>
      obtain ⟨g2, n2⟩ := e
      by_cases h2 : g2 = k
      · simp only [aerase, if_pos h2] at h
        exact List.mem_cons_of_mem _ h
      · simp only [aerase, if_neg h2] at h
        rcases List.mem_cons.mp h with h3 | h3
        · exact List.mem_cons.mpr (Or.inl h3)
        · exact List.mem_cons_of_mem _ (ih h3)

theorem keys_aset_of_lookup_some {α : Type} (s : List (Int × α)) (k : Int) (v w : α)
    (h : alookup s k = some w) : (aset s k v).map Prod.fst = s.map Prod.fst := by
  induction s with
  | nil => simp [alookup] at h
  | cons e t ih =>
      obtain ⟨g, n⟩ := e
      by_cases h2 : g = k
      · simp [aset, h2]
      · simp only [alookup, if_neg h2] at h
        simp [aset, h2, ih h]

theorem keys_aset_of_lookup_none {α : Type} (s : List (Int × α)) (k : Int) (v : α)
    (h : alookup s k = none) : (aset s k v).map Prod.fst = s.map Prod.fst ++ [k] := by
  induction s with
  | nil => simp [aset]
  | cons e t ih =>
      obtain ⟨g, n⟩ := e
      by_cases h2 : g = k
      · simp [alookup, h2] at h
      · simp only [alookup, if_neg h2] at h
        simp [aset, h2, ih h]

theorem keys_aerase_sublist {α : Type} (s : List (Int × α)) (k : Int) :
    ((aerase s k).map Prod.fst).Sublist (s.map Prod.fst) := by
  induction s with
  | nil => simp [aerase]
  | cons e t ih =>
      obtain ⟨g, n⟩ := e
      by_cases h2 : g = k
      · simp only [aerase, if_pos h2, List.map_cons]
        exact List.Sublist.cons g (List.Sublist.refl _)
      · simp only [aerase, if_neg h2, List.map_cons]
        exact ih.cons₂ g

theorem alookup_mem {α : Type} (s : List (Int × α)) (k : Int) (v : α)
    (h : alookup s k = some v) : (k, v) ∈ s := by
  induction s with
  | nil => simp [alookup] at h
  | cons e t ih =>
      obtain ⟨g, n⟩ := e
      by_cases h2 : g = k
      · simp only [alookup, if_pos h2] at h
        subst h2
        cases h
        exact List.mem_cons_self _ _

      · simp only [alookup, if_neg h2] at h
        exact List.mem_cons_of_mem _ (ih h)

theorem mem_alookup_of_nodup {α : Type} (s : List (Int × α)) (k : Int) (v : α)
    (hn : (s.map Prod.fst).Nodup) (h : (k, v) ∈ s) : alookup s k = some v := by
  induction s with
  | nil => simp at h
  | cons e t ih =>
      obtain ⟨g, n⟩ := e
      simp only [List.map_cons, List.nodup_cons] at hn
      rcases List.mem_cons.mp h with h2 | h2
      · cases h2
        simp [alookup]
      · have hgk : g ≠ k := by
          intro hgk
          subst hgk
          exact hn.1 (List.mem_map_of_mem Prod.fst h2)
        simp only [alookup, if_neg hgk]
        exact ih hn.2 h2

/-! ### Replacer operation lemmas -/

theorem setEvictable_fields (r : LRUKReplacer) (f : Int) (e : Bool) (r2 : LRUKReplacer)
    (h : r.setEvictable f e = .ok r2) :
    r2.current_timestamp = r.current_timestamp ∧ r2.replacer_size = r.replacer_size ∧
      r2.k = r.k := by
  unfold LRUKReplacer.setEvictable at h
  split at h
  · cases h
  · split at h
    · cases h
      exact ⟨rfl, rfl, rfl⟩
    · split at h
      · cases h
        exact ⟨rfl, rfl, rfl⟩
      · cases h
        exact ⟨rfl, rfl, rfl⟩

theorem setEvictable_keys (r : LRUKReplacer) (f : Int) (e : Bool) (r2 : LRUKReplacer)
    (h : r.setEvictable f e = .ok r2) :
    r2.node_store.map Prod.fst = r.node_store.map Prod.fst := by
  unfold LRUKReplacer.setEvictable at h
  split at h
  · cases h
  · split at h
    · cases h
      rfl
    · rename_i n hlk
      split at h
      · cases h
        exact keys_aset_of_lookup_some r.node_store f _ n hlk
      · cases h
        rfl

theorem setEvictable_lookup_ne (r : LRUKReplacer) (f : Int) (e : Bool) (r2 : LRUKReplacer)
    (g : Int) (hg : g ≠ f) (h : r.setEvictable f e = .ok r2) :
    alookup r2.node_store g = alookup r.node_store g := by
  unfold LRUKReplacer.setEvictable at h
  split at h
  · cases h
  · split at h
    · cases h
      rfl
    · split at h
      · cases h
        exact alookup_aset_ne r.node_store f g _ hg
      · cases h
        rfl

theorem setEvictable_false_self (r : LRUKReplacer) (f : Int) (r2 : LRUKReplacer)
    (h : r.setEvictable f false = .ok r2) : evictableB r2 f = false := by
  unfold LRUKReplacer.setEvictable at h
  split at h
  · cases h
  · split at h
    · rename_i hlk
      cases h
      simp [evictableB, hlk]
    · rename_i n hlk
      split at h
      · cases h
        simp [evictableB, alookup_aset_self]
      · rename_i hne
        cases h
        simp only [ne_eq, not_not] at hne
        simp [evictableB, hlk, hne]

theorem setEvictable_true_self (r : LRUKReplacer) (f : Int) (r2 : LRUKReplacer)
    (hsome : (alookup r.node_store f).isSome = true)
    (h : r.setEvictable f true = .ok r2) : evictableB r2 f = true := by
  unfold LRUKReplacer.setEvictable at h
  split at h
  · cases h
  · split at h
    · rename_i hlk
      rw [hlk] at hsome
      cases hsome
    · rename_i n hlk
      split at h
      · cases h
        simp [evictableB, alookup_aset_self]
      · rename_i hne
        cases h
        simp only [ne_eq, not_not] at hne
        simp [evictableB, hlk, hne]

theorem recordAccess_fields (r : LRUKReplacer) (f : Int) (r2 : LRUKReplacer)
    (h : r.recordAccess f = .ok r2) :
    r2.current_timestamp = sizeInc r.current_timestamp ∧
      r2.replacer_size = r.replacer_size ∧ r2.k = r.k := by
  unfold LRUKReplacer.recordAccess at h
  split at h
  · cases h
  · cases h
    exact ⟨rfl, rfl, rfl⟩

theorem recordAccess_lookup_ne (r : LRUKReplacer) (f : Int) (r2 : LRUKReplacer)
    (g : Int) (hg : g ≠ f) (h : r.recordAccess f = .ok r2) :
    alookup r2.node_store g = alookup r.node_store g := by
  unfold LRUKReplacer.recordAccess at h
  split at h
  · cases h
  · cases h
    cases hlk : alookup r.node_store f with
    | none =>
        simp only [hlk]
        rw [alookup_aset_ne _ f g _ hg, alookup_aset_ne _ f g _ hg]
    | some n =>
        simp only [hlk]
        rw [alookup_aset_ne _ f g _ hg]

theorem recordAccess_ev_self (r : LRUKReplacer) (f : Int) (r2 : LRUKReplacer)
    (h : r.recordAccess f = .ok r2) : evictableB r2 f = evictableB r f := by
  unfold LRUKReplacer.recordAccess at h
  split at h
  · cases h
  · cases h
    cases hlk : alookup r.node_store f with
    | none =>
        simp only [hlk, evictableB, alookup_aset_self]
        simp [LRUKNode.init]
    | some n =>
        simp only [hlk, evictableB, alookup_aset_self]
        simp

theorem recordAccess_keys (r : LRUKReplacer) (f : Int) (r2 : LRUKReplacer)
    (h : r.recordAccess f = .ok r2) :
    r2.node_store.map Prod.fst = r.node_store.map Prod.fst ∨
      r2.node_store.map Prod.fst = r.node_store.map Prod.fst ++ [f] := by
  unfold LRUKReplacer.recordAccess at h
  split at h
  · cases h
  · cases h
    cases hlk : alookup r.node_store f with
    | none =>
        refine Or.inr ?_
        simp only [hlk]
        rw [keys_aset_of_lookup_some _ f _ _ (alookup_aset_self r.node_store f LRUKNode.init)]
        exact keys_aset_of_lookup_none r.node_store f _ hlk
    | some n =>
        refine Or.inl ?_
        simp only [hlk]
        exact keys_aset_of_lookup_some r.node_store f _ n hlk

theorem getLast_tail_concat (l : List Nat) (t : Nat) (h : l ≠ []) :
    ((l ++ [t]).tail).getLast? = some t := by
  cases l with
  | nil => cases h rfl
  | cons a r => simp [List.getLast?_concat]

theorem recordAccess_hist (r : LRUKReplacer) (f : Int) (r2 : LRUKReplacer)
    (hk : 1 ≤ r.k) (h : r.recordAccess f = .ok r2) :
    ∃ n, alookup r2.node_store f = some n ∧
      n.history.getLast? = some r2.current_timestamp ∧ n.fid = f := by
  unfold LRUKReplacer.recordAccess at h
  split at h
  · cases h
  · cases h
    cases hlk : alookup r.node_store f with
    | none =>
        simp only [hlk]
        refine ⟨_, alookup_aset_self _ f _, ?_, rfl⟩
        simp only [alookup_aset_self]
        split
        · rename_i hlen
          simp [LRUKNode.init] at hlen
          omega
        · simp [LRUKNode.init]
    | some n =>
        simp only [hlk]
        refine ⟨_, alookup_aset_self _ f _, ?_, rfl⟩
        simp only [alookup_aset_self, hlk, Option.getD_some]
        split
        · rename_i hlen
          refine getLast_tail_concat _ _ ?_
          intro hnil
          rw [hnil] at hlen
          simp at hlen
          omega
        · simp [List.getLast?_concat]

theorem remove_fields (r : LRUKReplacer) (f : Int) (r2 : LRUKReplacer)
    (h : r.remove f = .ok r2) :
    r2.current_timestamp = r.current_timestamp ∧ r2.replacer_size = r.replacer_size ∧
      r2.k = r.k := by
  unfold LRUKReplacer.remove at h
  split at h
  · cases h
  · split at h
    · cases h
      exact ⟨rfl, rfl, rfl⟩
    · split at h
      · cases h
      · cases h
        exact ⟨rfl, rfl, rfl⟩

theorem remove_lookup_ne (r : LRUKReplacer) (f : Int) (r2 : LRUKReplacer)
    (g : Int) (hg : g ≠ f) (h : r.remove f = .ok r2) :
    alookup r2.node_store g = alookup r.node_store g := by
  unfold LRUKReplacer.remove at h
  split at h
  · cases h
  · split at h
    · cases h
      rfl
    · split at h
      · cases h
      · cases h
        exact alookup_aerase_ne r.node_store f g hg

theorem remove_self_of_nodup (r : LRUKReplacer) (f : Int) (r2 : LRUKReplacer)
    (hn : (r.node_store.map Prod.fst).Nodup) (h : r.remove f = .ok r2) :
    alookup r2.node_store f = none := by
  unfold LRUKReplacer.remove at h
  split at h
  · cases h
  · split at h
    · rename_i hlk
      cases h
      exact hlk
    · split at h
      · cases h
      · cases h
        exact alookup_aerase_self_of_nodup r.node_store f hn

theorem remove_keys_sublist (r : LRUKReplacer) (f : Int) (r2 : LRUKReplacer)
    (h : r.remove f = .ok r2) :
    (r2.node_store.map Prod.fst).Sublist (r.node_store.map Prod.fst) := by
  unfold LRUKReplacer.remove at h
  split at h
  · cases h
  · split at h
    · cases h
      exact List.Sublist.refl _
    · split at h
      · cases h
      · cases h
        exact keys_aerase_sublist r.node_store f

theorem evict_none (r : LRUKReplacer) (r2 : LRUKReplacer)
    (h : r.evict = (none, r2)) : r2 = r := by
  unfold LRUKReplacer.evict at h
  split at h
  · cases h
  · cases h
    rfl

theorem evict_some_state (r : LRUKReplacer) (f : Int) (r2 : LRUKReplacer)
    (h : r.evict = (some f, r2)) :
    r2.node_store = aerase r.node_store f ∧ r2.curr_size = sizeDec r.curr_size ∧
      r2.current_timestamp = r.current_timestamp ∧ r2.replacer_size = r.replacer_size ∧
      r2.k = r.k := by
  unfold LRUKReplacer.evict at h
  split at h
  · rename_i g hacc
    cases h
    exact ⟨rfl, rfl, rfl, rfl, rfl⟩
  · cases h

/-- The selection loop only ever installs evictable entries of the node
list as the victim. -/
theorem evictStep_fold_victim (k c : Nat) (l : List (Int × LRUKNode)) :
    ∀ (acc : EvictAcc) (f : Int),
      (l.foldl (evictStep k c) acc).victim = some f →
      (∃ n, (f, n) ∈ l ∧ n.is_evictable = true) ∨ acc.victim = some f := by
  induction l with
  | nil => exact fun acc f h => Or.inr h
  | cons e t ih =>
      intro acc f h
      rcases ih (evictStep k c acc e) f h with h2 | h2
      · obtain ⟨n, hn1, hn2⟩ := h2
        exact Or.inl ⟨n, List.mem_cons_of_mem _ hn1, hn2⟩
      · unfold evictStep at h2
        split at h2
        · exact Or.inr h2
        · rename_i hev
          split at h2
          · cases h2
            refine Or.inl ⟨e.2, ?_, ?_⟩
            · exact List.mem_cons.mpr (Or.inl rfl)
            · cases hb : e.2.is_evictable
              · exact absurd hb hev
              · rfl
          · exact Or.inr h2

theorem evict_victim_evictable (r : LRUKReplacer) (f : Int) (r2 : LRUKReplacer)
    (h : r.evict = (some f, r2)) :
    ∃ n, (f, n) ∈ r.node_store ∧ n.is_evictable = true := by
  unfold LRUKReplacer.evict at h
  split at h
  · rename_i g hacc
    cases h
    rcases evictStep_fold_victim r.k r.current_timestamp r.node_store
        ⟨none, SIZE_MAX, 0⟩ f (by rw [hacc]) with h2 | h2
    · exact h2
    · cases h2
  · cases h

/-! ### Correctness of the eviction selection loop -/

theorem accGood_step (k c : Nat) (P : List (Int × LRUKNode)) (a : EvictAcc)
    (e : Int × LRUKNode)
    (hwf : e.2.is_evictable = true → hfront e.2.history ≤ c) (hc : c < SIZE_MAX)
    (h : accGood k c P a) : accGood k c (P ++ [e]) (evictStep k c a e) := by
  unfold evictStep
  by_cases hev : e.2.is_evictable = false
  · rw [if_pos hev]
    rcases h with ⟨h1, h2, h3, hall⟩ | ⟨v, n, hv, hmem, hnev, hmax, hold, hall⟩
    · refine Or.inl ⟨h1, h2, h3, ?_⟩
      intro x hx
      rcases List.mem_append.mp hx with hx | hx
      · exact hall x hx
      · rw [List.mem_singleton.mp hx]
        exact hev
    · refine Or.inr ⟨v, n, hv, List.mem_append_left _ hmem, hnev, hmax, hold, ?_⟩
      intro x hx hxev
      rcases List.mem_append.mp hx with hx | hx
      · exact hall x hx hxev
      · rw [List.mem_singleton.mp hx] at hxev
        rw [hxev] at hev
        cases hev
  · rw [if_neg hev]
    have hev2 : e.2.is_evictable = true := by
      cases hb : e.2.is_evictable
      · exact absurd hb hev
      · rfl
    by_cases hcond : a.maxkd < kDist k c e.2 ∨
        (kDist k c e.2 = a.maxkd ∧ hfront e.2.history < a.oldest)
    · rw [if_pos hcond]
      refine Or.inr ⟨e.1, e.2, rfl, List.mem_append_right _ (by simp), hev2, rfl, rfl, ?_⟩
      dsimp only
      intro x hx hxev
      rcases List.mem_append.mp hx with hx | hx
      · rcases h with ⟨h1, h2, h3, hall⟩ | ⟨v, n, hv, hmem, hnev, hmax, hold, hall⟩
        · rw [hall x hx] at hxev
          cases hxev
        · rcases hall x hx hxev with h4 | ⟨h4, h5⟩
          · rcases hcond with h6 | ⟨h6, _⟩
            · left
              omega
            · left
              omega
          · rcases hcond with h6 | ⟨h6, h7⟩
            · left
              omega
            · right
              constructor
              · omega
              · omega
      · rw [List.mem_singleton.mp hx]
        exact Or.inr ⟨rfl, le_refl _⟩
    · rw [if_neg hcond]
      push_neg at hcond
      obtain ⟨hc1, hc2⟩ := hcond
      rcases h with ⟨h1, h2, h3, hall⟩ | ⟨v, n, hv, hmem, hnev, hmax, hold, hall⟩
      · exfalso
        rw [h3] at hc1
        rw [h2, h3] at hc2
        have hkd0 : kDist k c e.2 = 0 := by omega
        have h4 := hc2 hkd0
        have h5 := hwf hev2
        omega
      · refine Or.inr ⟨v, n, hv, List.mem_append_left _ hmem, hnev, hmax, hold, ?_⟩
        intro x hx hxev
        rcases List.mem_append.mp hx with hx | hx
        · exact hall x hx hxev
        · rw [List.mem_singleton.mp hx]
          have h4 : kDist k c e.2 ≤ a.maxkd := by omega
          rcases lt_or_eq_of_le h4 with h5 | h5
          · exact Or.inl h5
          · refine Or.inr ⟨h5, ?_⟩
            have h6 := hc2 h5
            omega

theorem accGood_fold (k c : Nat) (l : List (Int × LRUKNode))
    (hwf : ∀ e ∈ l, e.2.is_evictable = true → hfront e.2.history ≤ c)
    (hc : c < SIZE_MAX) :
    accGood k c l (l.foldl (evictStep k c) ⟨none, SIZE_MAX, 0⟩) := by
  induction l using List.reverseRecOn with
  | nil =>
      refine Or.inl ⟨rfl, rfl, rfl, ?_⟩
      intro x hx
      cases hx
  | append_singleton t e ih =>
      rw [List.foldl_append]
      exact accGood_step k c t _ e (hwf e (by simp)) hc
        (ih (fun x hx => hwf x (List.mem_append_left _ hx)))

/-- The wrapping size_t decrement is the plain decrement on a positive
counter below 2^64. -/
theorem sizeDec_eq (n : Nat) (h1 : 0 < n) (h2 : n < 2 ^ 64) : sizeDec n = n - 1 := by
  unfold sizeDec SIZE_MAX
  omega

/-- C5. Evict selects, among the nodes whose evictable flag is true, one of
maximal k-distance — current_timestamp minus the history front when the
history has at least K entries, the size_t maximum (standing for plus
infinity) otherwise — breaking ties by the smallest history front; it
erases the selected node, decrements curr_size and yields the frame id;
when no evictable node exists it returns none and leaves the whole state
unchanged. The hypotheses are the well-formedness the source maintains:
recorded fronts do not exceed current_timestamp, current_timestamp fits a
size_t strictly below its maximum, node keys are unique, and curr_size
counts the evictable nodes. -/
theorem evict_selection_spec (r : LRUKReplacer)
    (hts : ∀ e ∈ r.node_store, e.2.is_evictable = true →
      hfront e.2.history ≤ r.current_timestamp)
    (hc : r.current_timestamp < SIZE_MAX)
    (hnodup : (r.node_store.map Prod.fst).Nodup)
    (hcnt : r.curr_size = (r.node_store.filter (fun e => e.2.is_evictable)).length)
    (hlen : r.node_store.length < 2 ^ 64) :
    match r.evict with
    | (none, r2) => r2 = r ∧ ∀ e ∈ r.node_store, e.2.is_evictable = false
    | (some f, r2) =>
        ∃ n, alookup r.node_store f = some n ∧ n.is_evictable = true ∧
          (∀ e ∈ r.node_store, e.2.is_evictable = true →
            kDist r.k r.current_timestamp e.2 < kDist r.k r.current_timestamp n ∨
              (kDist r.k r.current_timestamp e.2 = kDist r.k r.current_timestamp n ∧
               hfront n.history ≤ hfront e.2.history)) ∧
          r2.node_store = aerase r.node_store f ∧
          r2.curr_size = r.curr_size - 1 ∧
          r2.current_timestamp = r.current_timestamp ∧
          r2.replacer_size = r.replacer_size ∧ r2.k = r.k := by
  have hgood := accGood_fold r.k r.current_timestamp r.node_store hts hc
  cases hv : r.evict with
  | mk v r2 =>
      cases v with
      | none =>
          dsimp only
          refine ⟨evict_none r r2 hv, ?_⟩
          rcases hgood with ⟨h1, _, _, hall⟩ | ⟨v2, n, hv2, _⟩
          · exact hall
          · unfold LRUKReplacer.evict at hv
            rw [hv2] at hv
            simp at hv
      | some f =>
          dsimp only
          unfold LRUKReplacer.evict at hv
          split at hv
          · rename_i g hacc
            have hgf : g = f := by
              injection hv with h1 h2
              injection h1
            have hr2 :
                r2 = { r with node_store := aerase r.node_store g, curr_size := sizeDec r.curr_size } := by
              injection hv with h1 h2
              exact h2.symm
            subst hgf
            subst hr2
            rcases hgood with ⟨h1, _⟩ | ⟨v2, n, hv2, hmem, hnev, hmax, hold, hall⟩
            · rw [hacc] at h1
              cases h1
            · rw [hacc] at hv2
              have hgv : g = v2 := by
                injection hv2
              subst hgv
              have hcpos : 0 < r.curr_size := by
                rw [hcnt]
                have hmf : (g, n) ∈ r.node_store.filter (fun e => e.2.is_evictable) :=
                  List.mem_filter.mpr ⟨hmem, hnev⟩
                exact List.length_pos.mpr (List.ne_nil_of_mem hmf)
              have hclt : r.curr_size < 2 ^ 64 := by
                rw [hcnt]
                exact lt_of_le_of_lt (List.length_filter_le _ _) hlen
              refine ⟨n, mem_alookup_of_nodup _ _ _ hnodup hmem, hnev, ?_, rfl, ?_, rfl,
                rfl, rfl⟩
              · intro x hx hxev
                rcases hall x hx hxev with h4 | ⟨h4, h5⟩
                · rw [hmax] at h4
                  exact Or.inl h4
                · rw [hmax] at h4
                  rw [hold] at h5
                  exact Or.inr ⟨h4, h5⟩
              · exact sizeDec_eq r.curr_size hcpos hclt
          · simp at hv

/-- Witness of the eviction-selection theorem at the concrete two-node
replacer: it selects node 2, the short-history node of infinite
k-distance. -/
theorem evict_selection_spec_witness :
    (match twoNodeReplacer.evict with
     | (none, r2) =>
        r2 = twoNodeReplacer ∧ ∀ e ∈ twoNodeReplacer.node_store, e.2.is_evictable = false
     | (some f, r2) =>
        ∃ n, alookup twoNodeReplacer.node_store f = some n ∧ n.is_evictable = true ∧
          (∀ e ∈ twoNodeReplacer.node_store, e.2.is_evictable = true →
            kDist twoNodeReplacer.k twoNodeReplacer.current_timestamp e.2 <
                kDist twoNodeReplacer.k twoNodeReplacer.current_timestamp n ∨
              (kDist twoNodeReplacer.k twoNodeReplacer.current_timestamp e.2 =
                kDist twoNodeReplacer.k twoNodeReplacer.current_timestamp n ∧
               hfront n.history ≤ hfront e.2.history)) ∧
          r2.node_store = aerase twoNodeReplacer.node_store f ∧
          r2.curr_size = twoNodeReplacer.curr_size - 1 ∧
          r2.current_timestamp = twoNodeReplacer.current_timestamp ∧
          r2.replacer_size = twoNodeReplacer.replacer_size ∧ r2.k = twoNodeReplacer.k) :=
  evict_selection_spec twoNodeReplacer (by decide) (by decide) (by decide) (by decide)
    (by decide)

/-! ### Frame array and further helper lemmas -/

theorem getD_set_self {α : Type} (l : List α) (i : Nat) (a d : α) (h : i < l.length) :
    (l.set i a).getD i d = a := by
  induction l generalizing i with
  | nil => cases h
  | cons b t ih =>
      cases i with
      | zero => rfl
      | succ j => exact ih j (Nat.lt_of_succ_lt_succ h)

theorem getD_set_ne {α : Type} (l : List α) (i j : Nat) (a d : α) (h : j ≠ i) :
    (l.set i a).getD j d = l.getD j d := by
  induction l generalizing i j with
  | nil => rfl
  | cons b t ih =>
      cases i with
      | zero =>
          cases j with
          | zero => cases h rfl
          | succ m => rfl
      | succ m =>
          cases j with
          | zero => rfl
          | succ m2 => exact ih m m2 (fun h2 => h (by rw [h2]))

theorem getPage_setPage_self (s : BufferPoolManager) (f : Int) (p : Page)
    (h : f.toNat < s.pages.length) : getPage (setPage s f p) f = p := by
  unfold getPage setPage
  exact getD_set_self s.pages f.toNat p Page.init h

theorem getPage_setPage_ne (s : BufferPoolManager) (f g : Int) (p : Page)
    (h : g.toNat ≠ f.toNat) : getPage (setPage s f p) g = getPage s g := by
  unfold getPage setPage
  exact getD_set_ne s.pages f.toNat g.toNat p Page.init h

theorem getPage_update_setPage (s : BufferPoolManager) (f : Int) (p : Page)
    (r1 : LRUKReplacer) (h : f.toNat < s.pages.length) :
    getPage { setPage s f p with replacer := r1 } f = p := by
  unfold getPage setPage
  exact getD_set_self s.pages f.toNat p Page.init h

theorem getPage_free_setPage (s : BufferPoolManager) (f : Int) (p : Page)
    (fl : List Int) (h : f.toNat < s.pages.length) :
    getPage ⟨(setPage s f p).pool_size, (setPage s f p).pages, (setPage s f p).replacer,
      (setPage s f p).page_table, fl, (setPage s f p).next_page_id, (setPage s f p).disk⟩ f
      = p := by
  unfold getPage setPage
  exact getD_set_self s.pages f.toNat p Page.init h

theorem getPage_toNat_eq (s : BufferPoolManager) (g f : Int) (h : g.toNat = f.toNat) :
    getPage s g = getPage s f := by
  unfold getPage
  rw [h]

theorem aerase_of_lookup_none {α : Type} (s : List (Int × α)) (k : Int)
    (h : alookup s k = none) : aerase s k = s := by
  induction s with
  | nil => rfl
  | cons e t ih =>
      obtain ⟨g, n⟩ := e
      by_cases h2 : g = k
      · rw [h2] at h
        simp [alookup] at h
      · simp only [alookup, if_neg h2] at h
        simp [aerase, h2, ih h]

theorem setEvictable_ok (r : LRUKReplacer) (f : Int) (e : Bool)
    (h : castSizeT f ≤ r.replacer_size) : ∃ r2, r.setEvictable f e = .ok r2 := by
  unfold LRUKReplacer.setEvictable
  rw [if_neg (by omega)]
  cases hlk : alookup r.node_store f with
  | none => exact ⟨r, rfl⟩
  | some n =>
      dsimp only
      by_cases h2 : n.is_evictable ≠ e
      · rw [if_pos h2]
        exact ⟨_, rfl⟩
      · rw [if_neg h2]
        exact ⟨r, rfl⟩

theorem recordAccess_ok (r : LRUKReplacer) (f : Int)
    (h : castSizeT f ≤ r.replacer_size) : ∃ r2, r.recordAccess f = .ok r2 := by
  unfold LRUKReplacer.recordAccess
  rw [if_neg (by omega)]
  exact ⟨_, rfl⟩

theorem remove_ok_store (r : LRUKReplacer) (f : Int) (h : castSizeT f ≤ r.replacer_size)
    (h2 : alookup r.node_store f = none ∨ evictableB r f = true) :
    ∃ r2, r.remove f = .ok r2 ∧ r2.node_store = aerase r.node_store f := by
  unfold LRUKReplacer.remove
  rw [if_neg (by omega)]
  cases hlk : alookup r.node_store f with
  | none => exact ⟨r, rfl, (aerase_of_lookup_none _ _ hlk).symm⟩
  | some n =>
      dsimp only
      rcases h2 with h2 | h2
      · rw [hlk] at h2
        cases h2
      · unfold evictableB at h2
        rw [hlk] at h2
        dsimp only at h2
        rw [if_neg (by rw [h2]; exact fun hx => Bool.noConfusion hx)]
        exact ⟨_, rfl, rfl⟩

/-- C6 amended. RecordAccess, SetEvictable and Remove raise the
out-of-range error exactly when the 32-bit frame id lies outside the
closed interval [0, replacer_size]: the source compares the cast id to
replacer_size_ with strictly-greater, so the id equal to replacer_size is
accepted, and a negative id wraps above 2^63 and is rejected. -/
theorem replacer_range_check (r : LRUKReplacer) (f : Int)
    (h1 : -(2 ^ 31) ≤ f) (h2 : f < 2 ^ 31) (h3 : r.replacer_size ≤ 2 ^ 63) :
    ((exOk (r.recordAccess f) = false) ↔ (f < 0 ∨ (r.replacer_size : Int) < f)) ∧
    (∀ e : Bool,
      (exOk (r.setEvictable f e) = false) ↔ (f < 0 ∨ (r.replacer_size : Int) < f)) ∧
    ((r.remove f = .error .invalidFrameId) ↔ (f < 0 ∨ (r.replacer_size : Int) < f)) := by
  have hb : (r.replacer_size < castSizeT f) ↔ (f < 0 ∨ (r.replacer_size : Int) < f) :=
    castSizeT_gt_iff f r.replacer_size h1 h2 h3
  refine ⟨?_, ?_, ?_⟩
  · unfold LRUKReplacer.recordAccess
    by_cases hc : r.replacer_size < castSizeT f
    · rw [if_pos hc]
      exact iff_of_true rfl (hb.mp hc)
    · rw [if_neg hc]
      exact iff_of_false (fun hx => Bool.noConfusion hx) (fun hr => hc (hb.mpr hr))
  · intro e
    unfold LRUKReplacer.setEvictable
    by_cases hc : r.replacer_size < castSizeT f
    · rw [if_pos hc]
      exact iff_of_true rfl (hb.mp hc)
    · rw [if_neg hc]
      refine iff_of_false ?_ (fun hr => hc (hb.mpr hr))
      cases hlk : alookup r.node_store f with
      | none => exact fun hx => Bool.noConfusion hx
      | some n =>
          dsimp only
          by_cases h4 : n.is_evictable ≠ e
          · rw [if_pos h4]
            exact fun hx => Bool.noConfusion hx
          · rw [if_neg h4]
            exact fun hx => Bool.noConfusion hx
  · unfold LRUKReplacer.remove
    by_cases hc : r.replacer_size < castSizeT f
    · rw [if_pos hc]
      exact iff_of_true rfl (hb.mp hc)
    · rw [if_neg hc]
      refine iff_of_false ?_ (fun hr => hc (hb.mpr hr))
      cases hlk : alookup r.node_store f with
      | none => exact fun hx => Except.noConfusion hx
      | some n =>
          dsimp only
          by_cases h4 : n.is_evictable = false
          · rw [if_pos h4]
            intro hx
            injection hx with hx
            exact RepErr.noConfusion hx
          · rw [if_neg h4]
            exact fun hx => Except.noConfusion hx

/-- Witness of the amended range-check theorem at the fresh replacer of
size 7 and the in-range-by-the-code id 8, which is rejected. -/
theorem replacer_range_check_witness :
    ((exOk ((LRUKReplacer.mkInit 7 2).recordAccess 8) = false) ↔
      ((8 : Int) < 0 ∨ (((LRUKReplacer.mkInit 7 2).replacer_size : Nat) : Int) < 8)) ∧
    (∀ e : Bool, (exOk ((LRUKReplacer.mkInit 7 2).setEvictable 8 e) = false) ↔
      ((8 : Int) < 0 ∨ (((LRUKReplacer.mkInit 7 2).replacer_size : Nat) : Int) < 8)) ∧
    (((LRUKReplacer.mkInit 7 2).remove 8 = .error .invalidFrameId) ↔
      ((8 : Int) < 0 ∨ (((LRUKReplacer.mkInit 7 2).replacer_size : Nat) : Int) < 8)) :=
  replacer_range_check (LRUKReplacer.mkInit 7 2) 8 (by decide) (by decide) (by decide)

/-- C8. UnpinPage(p, d) returns false when p is not resident or the pin
count of its frame is not positive, leaving the state unchanged; otherwise
it returns true, decrements the pin count, ORs the dirty hint into the
frame dirty flag — so a page once dirtied stays dirty until flushed, and
in particular an unpin with d = false followed by one with d = true leaves
the flag true — and marks the frame evictable exactly when the pin count
reaches zero. The hypotheses are state well-formedness facts the manager
maintains: page-table frames lie in the replacer range and in the frame
array, and pinned resident frames are non-evictable with a present node. -/
theorem unpinPage_spec (s : BufferPoolManager) (pid : Int) (d : Bool)
    (hfr : ∀ e ∈ s.page_table, 0 ≤ e.2 ∧ e.2 < (s.replacer.replacer_size : Int))
    (hsz : s.replacer.replacer_size ≤ 2 ^ 64)
    (hinv : ∀ e ∈ s.page_table, 0 < (getPage s e.2).pin_count →
      evictableB s.replacer e.2 = false ∧ (alookup s.replacer.node_store e.2).isSome = true)
    (hlen : ∀ e ∈ s.page_table, e.2.toNat < s.pages.length) :
    match alookup s.page_table pid with
    | none => s.unpinPage pid d = .ok (false, s)
    | some f =>
        if (getPage s f).pin_count ≤ 0 then s.unpinPage pid d = .ok (false, s)
        else ∃ s2, s.unpinPage pid d = .ok (true, s2) ∧
          (getPage s2 f).pin_count = (getPage s f).pin_count - 1 ∧
          (getPage s2 f).is_dirty = (d || (getPage s f).is_dirty) ∧
          (getPage s2 f).page_id = (getPage s f).page_id ∧
          (getPage s2 f).data = (getPage s f).data ∧
          (evictableB s2.replacer f = true ↔ (getPage s f).pin_count - 1 = 0) ∧
          s2.page_table = s.page_table ∧ s2.free_list = s.free_list ∧
          s2.disk = s.disk ∧ s2.next_page_id = s.next_page_id := by
  cases hlk : alookup s.page_table pid with
  | none =>
      dsimp only
      unfold BufferPoolManager.unpinPage
      rw [hlk]
  | some f =>
      dsimp only
      have hmem := alookup_mem _ _ _ hlk
      have hfr2 := hfr (pid, f) hmem
      have hlen2 := hlen (pid, f) hmem
      have hcast : castSizeT f ≤ s.replacer.replacer_size :=
        castSizeT_le f s.replacer.replacer_size hfr2.1 hfr2.2 hsz
      by_cases hpin : (getPage s f).pin_count ≤ 0
      · rw [if_pos hpin]
        unfold BufferPoolManager.unpinPage
        rw [hlk]
        dsimp only
        rw [if_pos hpin]
      · rw [if_neg hpin]
        have hinv2 := hinv (pid, f) hmem (by dsimp only; omega)
        unfold BufferPoolManager.unpinPage
        rw [hlk]
        dsimp only
        rw [if_neg hpin]
        by_cases hz : (getPage s f).pin_count - 1 = 0
        · rw [if_pos hz]
          obtain ⟨r1, hr1⟩ := setEvictable_ok (setPage s f { getPage s f with is_dirty := d || (getPage s f).is_dirty, pin_count := (getPage s f).pin_count - 1 }).replacer f true hcast
          rw [hr1]
          dsimp only
          refine ⟨_, rfl, ?_, ?_, ?_, ?_, ?_, rfl, rfl, rfl, rfl⟩
          · rw [getPage_update_setPage s f _ r1 hlen2]
          · rw [getPage_update_setPage s f _ r1 hlen2]
          · rw [getPage_update_setPage s f _ r1 hlen2]
          · rw [getPage_update_setPage s f _ r1 hlen2]
          · refine iff_of_true ?_ hz
            exact setEvictable_true_self _ f r1 hinv2.2 hr1
        · rw [if_neg hz]
          refine ⟨_, rfl, ?_, ?_, ?_, ?_, ?_, rfl, rfl, rfl, rfl⟩
          · rw [getPage_setPage_self s f _ hlen2]
          · rw [getPage_setPage_self s f _ hlen2]
          · rw [getPage_setPage_self s f _ hlen2]
          · rw [getPage_setPage_self s f _ hlen2]
          · exact iff_of_false (fun hx => Bool.noConfusion
              ((show evictableB s.replacer f = true from hx).symm.trans hinv2.1)) hz

/-- Witness of the UnpinPage theorem at the one-page pool: page 0 is
resident with pin count one, so unpinning with a true dirty hint succeeds,
zeroes the pin and marks the frame evictable. -/
theorem unpinPage_spec_witness :
    (match alookup poolOnePage.page_table 0 with
     | none => poolOnePage.unpinPage 0 true = .ok (false, poolOnePage)
     | some f =>
        if (getPage poolOnePage f).pin_count ≤ 0 then
          poolOnePage.unpinPage 0 true = .ok (false, poolOnePage)
        else ∃ s2, poolOnePage.unpinPage 0 true = .ok (true, s2) ∧
          (getPage s2 f).pin_count = (getPage poolOnePage f).pin_count - 1 ∧
          (getPage s2 f).is_dirty = (true || (getPage poolOnePage f).is_dirty) ∧
          (getPage s2 f).page_id = (getPage poolOnePage f).page_id ∧
          (getPage s2 f).data = (getPage poolOnePage f).data ∧
          (evictableB s2.replacer f = true ↔ (getPage poolOnePage f).pin_count - 1 = 0) ∧
          s2.page_table = poolOnePage.page_table ∧ s2.free_list = poolOnePage.free_list ∧
          s2.disk = poolOnePage.disk ∧ s2.next_page_id = poolOnePage.next_page_id) :=
  unpinPage_spec poolOnePage 0 true (by decide) (by decide) (by decide) (by decide)

/-- C9. FlushPage(p) returns false and changes nothing when p is not
resident; when resident it writes the frame payload to disk
unconditionally — the dirty flag is not consulted — clears the dirty
flag, returns true, and leaves the page table, the free list, the
replacer, the page id of the frame and the pin count of every frame
unchanged. -/
theorem flushPage_spec (s : BufferPoolManager) (pid : Int)
    (hlen : ∀ e ∈ s.page_table, e.2.toNat < s.pages.length) :
    match alookup s.page_table pid with
    | none => s.flushPage pid = (false, s)
    | some f =>
        ∃ s2, s.flushPage pid = (true, s2) ∧
          s2.disk = aset s.disk pid (getPage s f).data ∧
          (getPage s2 f).is_dirty = false ∧
          (getPage s2 f).page_id = (getPage s f).page_id ∧
          (getPage s2 f).data = (getPage s f).data ∧
          (∀ g : Int, (getPage s2 g).pin_count = (getPage s g).pin_count) ∧
          s2.page_table = s.page_table ∧ s2.free_list = s.free_list ∧
          s2.replacer = s.replacer ∧ s2.next_page_id = s.next_page_id := by
  cases hlk : alookup s.page_table pid with
  | none =>
      dsimp only
      unfold BufferPoolManager.flushPage
      rw [hlk]
  | some f =>
      dsimp only
      have hmem := alookup_mem _ _ _ hlk
      have hlen2 := hlen (pid, f) hmem
      unfold BufferPoolManager.flushPage
      rw [hlk]
      dsimp only
      refine ⟨_, rfl, rfl, ?_, ?_, ?_, ?_, rfl, rfl, rfl, rfl⟩
      · rw [getPage_setPage_self (writeFrame s f pid) f _ hlen2]
      · rw [getPage_setPage_self (writeFrame s f pid) f _ hlen2]
        exact rfl
      · rw [getPage_setPage_self (writeFrame s f pid) f _ hlen2]
        exact rfl
      · intro g
        by_cases hg : g.toNat = f.toNat
        · rw [getPage_toNat_eq _ g f hg, getPage_toNat_eq s g f hg,
            getPage_setPage_self (writeFrame s f pid) f _ hlen2]
          exact rfl
        · rw [getPage_setPage_ne (writeFrame s f pid) f g _ hg]
          exact rfl

/-- Witness of the FlushPage theorem at the one-page pool: page 0 is
resident and clean, yet the flush writes it to disk and returns true. -/
theorem flushPage_spec_witness :
    (match alookup poolOnePage.page_table 0 with
     | none => poolOnePage.flushPage 0 = (false, poolOnePage)
     | some f =>
        ∃ s2, poolOnePage.flushPage 0 = (true, s2) ∧
          s2.disk = aset poolOnePage.disk 0 (getPage poolOnePage f).data ∧
          (getPage s2 f).is_dirty = false ∧
          (getPage s2 f).page_id = (getPage poolOnePage f).page_id ∧
          (getPage s2 f).data = (getPage poolOnePage f).data ∧
          (∀ g : Int, (getPage s2 g).pin_count = (getPage poolOnePage g).pin_count) ∧
          s2.page_table = poolOnePage.page_table ∧ s2.free_list = poolOnePage.free_list ∧
          s2.replacer = poolOnePage.replacer ∧ s2.next_page_id = poolOnePage.next_page_id) :=
  flushPage_spec poolOnePage 0 (by decide)

/-- C10. DeletePage(p) returns true and changes nothing when p is not
resident; returns false and changes nothing when the pin count of its
frame is positive; otherwise it returns true after removing the frame
from the replacer, erasing the page-table entry of p, resetting the frame
to the invalid page id, clean and zeroed with the pin count untouched,
and appending the frame to the free list. The hypotheses are the usual
well-formedness facts: frames in range, unique page-table keys, and
unpinned resident frames with no node or an evictable node (which the
manager maintains), so that Remove cannot throw. -/
theorem deletePage_spec (s : BufferPoolManager) (pid : Int)
    (hfr : ∀ e ∈ s.page_table, 0 ≤ e.2 ∧ e.2 < (s.replacer.replacer_size : Int))
    (hsz : s.replacer.replacer_size ≤ 2 ^ 64)
    (hnodup : (s.page_table.map Prod.fst).Nodup)
    (hrm : ∀ e ∈ s.page_table, (getPage s e.2).pin_count ≤ 0 →
      alookup s.replacer.node_store e.2 = none ∨ evictableB s.replacer e.2 = true)
    (hlen : ∀ e ∈ s.page_table, e.2.toNat < s.pages.length) :
    match alookup s.page_table pid with
    | none => s.deletePage pid = .ok (true, s)
    | some f =>
        if 0 < (getPage s f).pin_count then s.deletePage pid = .ok (false, s)
        else ∃ s2, s.deletePage pid = .ok (true, s2) ∧
          alookup s2.page_table pid = none ∧
          s2.page_table = aerase s.page_table pid ∧
          s2.replacer.node_store = aerase s.replacer.node_store f ∧
          (getPage s2 f).page_id = INVALID_PAGE_ID ∧
          (getPage s2 f).is_dirty = false ∧
          (getPage s2 f).data = 0 ∧
          (getPage s2 f).pin_count = (getPage s f).pin_count ∧
          s2.free_list = s.free_list ++ [f] ∧ s2.disk = s.disk := by
  cases hlk : alookup s.page_table pid with
  | none =>
      dsimp only
      unfold BufferPoolManager.deletePage
      rw [hlk]
  | some f =>
      dsimp only
      have hmem := alookup_mem _ _ _ hlk
      have hfr2 := hfr (pid, f) hmem
      have hlen2 := hlen (pid, f) hmem
      have hcast : castSizeT f ≤ s.replacer.replacer_size :=
        castSizeT_le f s.replacer.replacer_size hfr2.1 hfr2.2 hsz
      by_cases hpin : 0 < (getPage s f).pin_count
      · rw [if_pos hpin]
        unfold BufferPoolManager.deletePage
        rw [hlk]
        dsimp only
        rw [if_pos hpin]
      · rw [if_neg hpin]
        obtain ⟨r1, hr1, hr1s⟩ := remove_ok_store s.replacer f hcast
          (hrm (pid, f) hmem (by dsimp only; omega))
        unfold BufferPoolManager.deletePage
        rw [hlk]
        dsimp only
        rw [if_neg hpin, hr1]
        dsimp only
        refine ⟨_, rfl, ?_, rfl, hr1s, ?_, ?_, ?_, ?_, rfl, rfl⟩
        · exact alookup_aerase_self_of_nodup s.page_table pid hnodup
        · rw [getPage_free_setPage { s with replacer := r1, page_table := aerase s.page_table pid } f _ _ hlen2]
        · rw [getPage_free_setPage { s with replacer := r1, page_table := aerase s.page_table pid } f _ _ hlen2]
        · rw [getPage_free_setPage { s with replacer := r1, page_table := aerase s.page_table pid } f _ _ hlen2]
        · rw [getPage_free_setPage { s with replacer := r1, page_table := aerase s.page_table pid } f _ _ hlen2]

/-- Witness of the DeletePage theorem at the one-page pool after the
unpin: page 0 resident with pin count zero, so the delete succeeds and
recycles frame 0. -/
theorem deletePage_spec_witness :
    (match alookup poolOnePageUnpinned.page_table 0 with
     | none => poolOnePageUnpinned.deletePage 0 = .ok (true, poolOnePageUnpinned)
     | some f =>
        if 0 < (getPage poolOnePageUnpinned f).pin_count then
          poolOnePageUnpinned.deletePage 0 = .ok (false, poolOnePageUnpinned)
        else ∃ s2, poolOnePageUnpinned.deletePage 0 = .ok (true, s2) ∧
          alookup s2.page_table 0 = none ∧
          s2.page_table = aerase poolOnePageUnpinned.page_table 0 ∧
          s2.replacer.node_store = aerase poolOnePageUnpinned.replacer.node_store f ∧
          (getPage s2 f).page_id = INVALID_PAGE_ID ∧
          (getPage s2 f).is_dirty = false ∧
          (getPage s2 f).data = 0 ∧
          (getPage s2 f).pin_count = (getPage poolOnePageUnpinned f).pin_count ∧
          s2.free_list = poolOnePageUnpinned.free_list ++ [f] ∧
          s2.disk = poolOnePageUnpinned.disk) :=
  deletePage_spec poolOnePageUnpinned 0 (by decide) (by decide) (by decide) (by decide)
    (by decide)

/-- The installation tail of NewPage installs the allocated page id on the
acquired frame: pid = next_page_id is returned, the counter is
incremented, the frame is reset to (pid, pin 1, clean, zeroed), the page
table maps pid to the frame, the frame ends non-evictable and its access
history ends with the new timestamp; free list and disk are untouched. -/
theorem newPageInstall_spec (s1 : BufferPoolManager) (f : Int)
    (hk : 1 ≤ s1.replacer.k)
    (hcast : castSizeT f ≤ s1.replacer.replacer_size)
    (hflen : f.toNat < s1.pages.length) :
    ∃ s2, newPageInstall s1 f = .ok (some s1.next_page_id, s2) ∧
      s2.free_list = s1.free_list ∧
      s2.next_page_id = s1.next_page_id + 1 ∧
      getPage s2 f = ⟨s1.next_page_id, 1, false, 0⟩ ∧
      s2.page_table = aset s1.page_table s1.next_page_id f ∧
      evictableB s2.replacer f = false ∧
      (∃ n, alookup s2.replacer.node_store f = some n ∧
        n.history.getLast? = some s2.replacer.current_timestamp) ∧
      s2.disk = s1.disk := by
  obtain ⟨r1, hr1⟩ := setEvictable_ok s1.replacer f false hcast
  have hf1 := setEvictable_fields s1.replacer f false r1 hr1
  obtain ⟨r2, hr2⟩ := recordAccess_ok r1 f (by rw [hf1.2.1]; exact hcast)
  have hk2 : 1 ≤ r1.k := by
    rw [hf1.2.2]
    exact hk
  unfold newPageInstall
  simp only [setPage]
  rw [hr1]
  dsimp only
  rw [hr2]
  dsimp only
  refine ⟨_, rfl, rfl, rfl, ?_, rfl, ?_, ?_, rfl⟩
  · simp only [getPage]
    rw [getD_set_self s1.pages f.toNat _ Page.init hflen]
  · rw [show evictableB r2 f = evictableB r1 f from recordAccess_ev_self r1 f r2 hr2]
    exact setEvictable_false_self s1.replacer f r1 hr1
  · obtain ⟨n, hn1, hn2, hn3⟩ := recordAccess_hist r1 f r2 hk2 hr2
    exact ⟨n, hn1, hn2⟩

/-- C7. NewPage fails — returning none with the state unchanged — exactly
when the free list is empty and the replacer yields no victim; otherwise
it takes the head of the free list first, else the eviction victim, whose
stale page-table entry is erased and whose contents are written back to
disk exactly when dirty; it returns the value of the monotone counter as
the fresh page id (strictly larger than every id allocated before, the
counter being incremented), resets the frame to that id with pin count 1,
clean and zeroed, maps the id, leaves the frame non-evictable and records
the access. Hypotheses: K at least 1 and frame ids in range, as the
manager maintains. -/
theorem newPage_spec (s : BufferPoolManager)
    (hk : 1 ≤ s.replacer.k)
    (hfree : ∀ f ∈ s.free_list, 0 ≤ f ∧ f < (s.replacer.replacer_size : Int))
    (hstore : ∀ e ∈ s.replacer.node_store, 0 ≤ e.1 ∧ e.1 < (s.replacer.replacer_size : Int))
    (hsz : s.replacer.replacer_size ≤ 2 ^ 64)
    (hflen : ∀ f ∈ s.free_list, f.toNat < s.pages.length)
    (hslen : ∀ e ∈ s.replacer.node_store, e.1.toNat < s.pages.length) :
    (s.free_list = [] → (s.replacer.evict).1 = none → s.newPage = .ok (none, s)) ∧
    (∀ f rest, s.free_list = f :: rest →
      ∃ s2, s.newPage = .ok (some s.next_page_id, s2) ∧
        s2.free_list = rest ∧
        s2.next_page_id = s.next_page_id + 1 ∧
        getPage s2 f = ⟨s.next_page_id, 1, false, 0⟩ ∧
        s2.page_table = aset s.page_table s.next_page_id f ∧
        s2.disk = s.disk ∧
        evictableB s2.replacer f = false ∧
        (∃ n, alookup s2.replacer.node_store f = some n ∧
          n.history.getLast? = some s2.replacer.current_timestamp)) ∧
    (∀ f r1, s.free_list = [] → s.replacer.evict = (some f, r1) →
      ∃ s2, s.newPage = .ok (some s.next_page_id, s2) ∧
        s2.free_list = [] ∧
        s2.next_page_id = s.next_page_id + 1 ∧
        getPage s2 f = ⟨s.next_page_id, 1, false, 0⟩ ∧
        s2.page_table = aset (aerase s.page_table (getPage s f).page_id) s.next_page_id f ∧
        s2.disk = (if (getPage s f).is_dirty then
          aset s.disk (getPage s f).page_id (getPage s f).data else s.disk) ∧
        evictableB s2.replacer f = false ∧
        (∃ n, alookup s2.replacer.node_store f = some n ∧
          n.history.getLast? = some s2.replacer.current_timestamp)) := by
  refine ⟨?_, ?_, ?_⟩
  · intro h1 h2
    unfold BufferPoolManager.newPage takeFrame
    rw [h1]
    dsimp only
    cases hev : s.replacer.evict with
    | mk v r =>
        rw [hev] at h2
        dsimp only at h2
        subst h2
        rfl
  · intro f rest hfl
    have hmem : f ∈ s.free_list := by
      rw [hfl]
      exact List.mem_cons_self _ _
    have hfr2 := hfree f hmem
    have hcast : castSizeT f ≤ s.replacer.replacer_size :=
      castSizeT_le f s.replacer.replacer_size hfr2.1 hfr2.2 hsz
    have hflen2 := hflen f hmem
    obtain ⟨s2, hs2, h1, h2, h3, h4, h5, h6, h7⟩ :=
      newPageInstall_spec { s with free_list := rest } f hk hcast hflen2
    refine ⟨s2, ?_, ?_, h2, h3, h4, h7, h5, h6⟩
    · unfold BufferPoolManager.newPage takeFrame
      rw [hfl]
      exact hs2
    · rw [h1]
  · intro f r1 hfl hev
    obtain ⟨n, hnmem, hnev⟩ := evict_victim_evictable s.replacer f r1 hev
    have hfr2 := hstore (f, n) hnmem
    have hflen2 := hslen (f, n) hnmem
    have hes := evict_some_state s.replacer f r1 hev
    have hcast : castSizeT f ≤ r1.replacer_size := by
      rw [hes.2.2.2.1]
      exact castSizeT_le f s.replacer.replacer_size hfr2.1 hfr2.2 hsz
    have hk2 : 1 ≤ r1.k := by
      rw [hes.2.2.2.2]
      exact hk
    unfold BufferPoolManager.newPage takeFrame
    rw [hfl]
    dsimp only
    rw [hev]
    dsimp only
    split
    · rename_i hdirty
      obtain ⟨s2, hs2, h1, h2, h3, h4, h5, h6, h7⟩ :=
        newPageInstall_spec (writeFrame { s with replacer := r1, page_table := aerase s.page_table (getPage { s with replacer := r1 } f).page_id, free_list := [] } f (getPage { s with replacer := r1 } f).page_id) f hk2 hcast hflen2
      refine ⟨s2, hs2, ?_, h2, h3, h4, ?_, h5, h6⟩
      · rw [h1]
        exact rfl
      · rw [if_pos (show (getPage s f).is_dirty = true from hdirty)]
        exact h7
    · rename_i hdirty
      obtain ⟨s2, hs2, h1, h2, h3, h4, h5, h6, h7⟩ :=
        newPageInstall_spec { s with replacer := r1, page_table := aerase s.page_table (getPage { s with replacer := r1 } f).page_id, free_list := [] } f hk2 hcast hflen2
      refine ⟨s2, hs2, ?_, h2, h3, h4, ?_, h5, h6⟩
      · rw [h1]
      · rw [if_neg (show ¬ (getPage s f).is_dirty = true from hdirty)]
        exact h7

/-- Witness of the NewPage theorem at a fresh two-frame pool: the free
list holds frame 0 first, so the free branch applies. -/
theorem newPage_spec_witness :
    (pool2.free_list = [] → (pool2.replacer.evict).1 = none →
      pool2.newPage = .ok (none, pool2)) ∧
    (∀ f rest, pool2.free_list = f :: rest →
      ∃ s2, pool2.newPage = .ok (some pool2.next_page_id, s2) ∧
        s2.free_list = rest ∧
        s2.next_page_id = pool2.next_page_id + 1 ∧
        getPage s2 f = ⟨pool2.next_page_id, 1, false, 0⟩ ∧
        s2.page_table = aset pool2.page_table pool2.next_page_id f ∧
        s2.disk = pool2.disk ∧
        evictableB s2.replacer f = false ∧
        (∃ n, alookup s2.replacer.node_store f = some n ∧
          n.history.getLast? = some s2.replacer.current_timestamp)) ∧
    (∀ f r1, pool2.free_list = [] → pool2.replacer.evict = (some f, r1) →
      ∃ s2, pool2.newPage = .ok (some pool2.next_page_id, s2) ∧
        s2.free_list = [] ∧
        s2.next_page_id = pool2.next_page_id + 1 ∧
        getPage s2 f = ⟨pool2.next_page_id, 1, false, 0⟩ ∧
        s2.page_table = aset (aerase pool2.page_table (getPage pool2 f).page_id)
          pool2.next_page_id f ∧
        s2.disk = (if (getPage pool2 f).is_dirty then
          aset pool2.disk (getPage pool2 f).page_id (getPage pool2 f).data else pool2.disk) ∧
        evictableB s2.replacer f = false ∧
        (∃ n, alookup s2.replacer.node_store f = some n ∧
          n.history.getLast? = some s2.replacer.current_timestamp)) :=
  newPage_spec pool2 (by decide) (by decide) (by decide) (by decide) (by decide) (by decide)

/-! ### The reachability invariant: helper lemmas -/

theorem set_oob {α : Type} (l : List α) (i : Nat) (a : α) (h : l.length ≤ i) :
    l.set i a = l := by
  induction l generalizing i with
  | nil => rfl
  | cons b t ih =>
      cases i with
      | zero => simp at h
      | succ j =>
          simp only [List.set]
          rw [ih j (by simpa using h)]

theorem getD_set_cases {α : Type} (l : List α) (i j : Nat) (a d : α) :
    (l.set i a).getD j d = l.getD j d ∨
      ((l.set i a).getD j d = a ∧ j = i ∧ j < l.length) := by
  by_cases h : j = i
  · subst h
    by_cases h2 : j < l.length
    · exact Or.inr ⟨getD_set_self l j a d h2, rfl, h2⟩
    · refine Or.inl ?_
      rw [set_oob l j a (by omega)]
  · exact Or.inl (getD_set_ne l i j a d h)

/-- A negative frame id has no node when all node keys are nonnegative. -/
theorem evictableB_neg (r : LRUKReplacer) (g : Int) (hg : g < 0)
    (hkeys : ∀ k ∈ r.node_store.map Prod.fst, 0 ≤ k) : evictableB r g = false := by
  unfold evictableB
  cases hlk : alookup r.node_store g with
  | none => rfl
  | some n =>
      have h2 := hkeys g (List.mem_map_of_mem Prod.fst (alookup_mem _ _ _ hlk))
      exact absurd h2 (by omega)

theorem evictableB_congr (r r2 : LRUKReplacer) (g : Int)
    (h : alookup r2.node_store g = alookup r.node_store g) :
    evictableB r2 g = evictableB r g := by
  unfold evictableB
  rw [h]

/-- Distinct nonnegative integers have distinct toNat images. -/
theorem toNat_inj_nonneg (f g : Int) (hf : 0 ≤ f) (hg : 0 ≤ g)
    (h : g.toNat = f.toNat) : g = f := by
  omega

/-- RecordAccess keeps node keys unique. -/
theorem recordAccess_nodup (r : LRUKReplacer) (f : Int) (r2 : LRUKReplacer)
    (hn : (r.node_store.map Prod.fst).Nodup) (h : r.recordAccess f = .ok r2) :
    (r2.node_store.map Prod.fst).Nodup := by
  unfold LRUKReplacer.recordAccess at h
  split at h
  · cases h
  · cases h
    cases hlk : alookup r.node_store f with
    | none =>
        simp only [hlk]
        rw [keys_aset_of_lookup_some _ f _ _ (alookup_aset_self r.node_store f LRUKNode.init),
          keys_aset_of_lookup_none r.node_store f _ hlk]
        refine List.Nodup.append hn (List.nodup_singleton f) ?_
        intro x hx hx2
        rw [List.mem_singleton.mp hx2] at hx
        exact (alookup_eq_none_iff r.node_store f).mp hlk hx
    | some n =>
        simp only [hlk]
        rw [keys_aset_of_lookup_some _ f _ n hlk]
        exact hn

/-- Remove only ever erases entries. -/
theorem remove_store_sub (r : LRUKReplacer) (f : Int) (r2 : LRUKReplacer)
    (h : r.remove f = .ok r2) (g : Int) (m : LRUKNode)
    (hmem : (g, m) ∈ r2.node_store) : (g, m) ∈ r.node_store := by
  unfold LRUKReplacer.remove at h
  split at h
  · cases h
  · split at h
    · cases h
      exact hmem
    · split at h
      · cases h
      · cases h
        exact mem_aerase _ f g m hmem

theorem map_snd_ok {α β : Type} (x : Except RepErr (α × β)) (s2 : β)
    (h : x.map Prod.snd = .ok s2) : ∃ a, x = .ok (a, s2) := by
  cases x with
  | error e => simp [Except.map] at h
  | ok p =>
      obtain ⟨a, b⟩ := p
      simp [Except.map] at h
      exact ⟨a, by rw [h]⟩

/-- Pin counts stay nonnegative under one frame write with a nonnegative
pin count. -/
theorem pin_nonneg_set (s : BufferPoolManager) (f : Int) (p : Page)
    (h : ∀ g : Int, 0 ≤ (getPage s g).pin_count) (hp : 0 ≤ p.pin_count) :
    ∀ g : Int, 0 ≤ (getPage (setPage s f p) g).pin_count := by
  intro g
  unfold getPage setPage
  dsimp only
  rcases getD_set_cases s.pages f.toNat g.toNat p Page.init with h2 | ⟨h2, _, _⟩
  · rw [h2]
    exact h g
  · rw [h2]
    exact hp

/-- A frame write at a nonnegative index leaves every other nonnegative
index unchanged. -/
theorem getPage_set_ne_nonneg (s : BufferPoolManager) (f g : Int) (p : Page)
    (hf : 0 ≤ f) (hg : 0 ≤ g) (hne : g ≠ f) :
    getPage (setPage s f p) g = getPage s g :=
  getPage_setPage_ne s f g p (by omega)

/-- The generic shape of the pinned-frames-not-evictable preservation
argument: negative ids have no node; the modified frame is either
non-evictable or unpinned afterwards; other frames keep their page and
their evictability. -/
theorem pinned_not_ev_generic (s s2 : BufferPoolManager) (f : Int)
    (hinv : ∀ g : Int, 0 < (getPage s g).pin_count → evictableB s.replacer g = false)
    (hpages : ∀ g : Int, 0 ≤ g → g ≠ f → getPage s2 g = getPage s g)
    (hself : evictableB s2.replacer f = false ∨ (getPage s2 f).pin_count ≤ 0)
    (hother : ∀ g : Int, 0 ≤ g → g ≠ f →
      alookup s2.replacer.node_store g = alookup s.replacer.node_store g)
    (hkeys2 : ∀ k ∈ s2.replacer.node_store.map Prod.fst, 0 ≤ k) :
    ∀ g : Int, 0 < (getPage s2 g).pin_count → evictableB s2.replacer g = false := by
  intro g hg
  by_cases h0 : g < 0
  · exact evictableB_neg s2.replacer g h0 hkeys2
  · by_cases hgf : g = f
    · subst hgf
      rcases hself with h2 | h2
      · exact h2
      · omega
    · rw [evictableB_congr s.replacer s2.replacer g (hother g (by omega) hgf)]
      rw [hpages g (by omega) hgf] at hg
      exact hinv g hg

/-- FlushPage changes neither residency nor pins nor the replacer. -/
theorem flushPage_state (t : BufferPoolManager) (p : Int) :
    (t.flushPage p).2.free_list = t.free_list ∧
    (t.flushPage p).2.page_table = t.page_table ∧
    (t.flushPage p).2.replacer = t.replacer ∧
    (∀ g : Int, (getPage (t.flushPage p).2 g).pin_count = (getPage t g).pin_count) := by
  unfold BufferPoolManager.flushPage
  cases hlk : alookup t.page_table p with
  | none => exact ⟨rfl, rfl, rfl, fun g => rfl⟩
  | some f =>
      dsimp only
      refine ⟨rfl, rfl, rfl, ?_⟩
      intro g
      unfold getPage setPage writeFrame
      dsimp only
      rcases getD_set_cases t.pages f.toNat g.toNat
          ⟨(t.pages.getD f.toNat Page.init).page_id, (t.pages.getD f.toNat Page.init).pin_count,
            false, (t.pages.getD f.toNat Page.init).data⟩ Page.init with h2 | ⟨h2, h3, _⟩
      · rw [h2]
      · rw [h2, h3]

/-- Inv transfers along state equalities that preserve the relevant
components. -/
theorem Inv_of_same (s s2 : BufferPoolManager) (h : Inv s)
    (hfree : s2.free_list = s.free_list) (hpt : s2.page_table = s.page_table)
    (hrep : s2.replacer = s.replacer)
    (hpin : ∀ g : Int, (getPage s2 g).pin_count = (getPage s g).pin_count) : Inv s2 := by
  refine ⟨?_, ?_, ?_, ?_, ?_, ?_⟩
  · rw [hfree]
    exact h.free_nonneg
  · rw [hpt]
    exact h.pt_nonneg
  · rw [hrep]
    exact h.store_nonneg
  · rw [hrep]
    exact h.store_nodup
  · intro g
    rw [hpin g]
    exact h.pin_nonneg g
  · intro g hg
    rw [hpin g] at hg
    rw [hrep]
    exact h.pinned_not_ev g hg

theorem Inv_flushPage (s : BufferPoolManager) (p : Int) (h : Inv s) :
    Inv (s.flushPage p).2 := by
  obtain ⟨h1, h2, h3, h4⟩ := flushPage_state s p
  exact Inv_of_same s _ h h1 h2 h3 h4

theorem Inv_flushAll (s : BufferPoolManager) (h : Inv s) : Inv s.flushAllPages := by
  unfold BufferPoolManager.flushAllPages
  generalize s.page_table.map Prod.fst = ps
  induction ps generalizing s with
  | nil => exact h
  | cons p pt ih =>
      simp only [List.foldl_cons]
      exact ih _ (Inv_flushPage s p h)

theorem getD_oob {α : Type} (l : List α) (i : Nat) (d : α) (h : l.length ≤ i) :
    l.getD i d = d := by
  induction l generalizing i with
  | nil => rfl
  | cons b t ih =>
      cases i with
      | zero => simp at h
      | succ j => exact ih j (by simpa using h)

/-- Reading back a written frame yields the written page or, when the
index is out of the frame array, the initial page. -/
theorem getPage_setPage_self_or (s : BufferPoolManager) (f : Int) (p : Page) :
    getPage (setPage s f p) f = p ∨ getPage (setPage s f p) f = Page.init := by
  by_cases hlen : f.toNat < s.pages.length
  · exact Or.inl (getPage_setPage_self s f p hlen)
  · refine Or.inr ?_
    unfold getPage setPage
    dsimp only
    rw [set_oob s.pages f.toNat p (by omega)]
    exact getD_oob s.pages f.toNat Page.init (by omega)

/-- The same, through a replacer update of the state. -/
theorem getPage_update_setPage_or (s : BufferPoolManager) (f : Int) (p : Page)
    (r1 : LRUKReplacer) :
    getPage { setPage s f p with replacer := r1 } f = p ∨
      getPage { setPage s f p with replacer := r1 } f = Page.init := by
  by_cases hlen : f.toNat < s.pages.length
  · exact Or.inl (getPage_update_setPage s f p r1 hlen)
  · refine Or.inr ?_
    unfold getPage setPage
    dsimp only
    rw [set_oob s.pages f.toNat p (by omega)]
    exact getD_oob s.pages f.toNat Page.init (by omega)

theorem Inv_unpinPage (s : BufferPoolManager) (pid : Int) (d : Bool) (b : Bool)
    (s2 : BufferPoolManager) (h : Inv s) (hok : s.unpinPage pid d = .ok (b, s2)) : Inv s2 := by
  unfold BufferPoolManager.unpinPage at hok
  split at hok
  · cases hok
    exact h
  · rename_i f hlk
    have hf : (0 : Int) ≤ f := h.pt_nonneg (pid, f) (alookup_mem _ _ _ hlk)
    dsimp only at hok
    split at hok
    · cases hok
      exact h
    · rename_i hpin
      split at hok
      · rename_i hz
        split at hok
        · cases hok
        · rename_i r1 hr1
          cases hok
          refine ⟨h.free_nonneg, h.pt_nonneg, ?_, ?_, ?_, ?_⟩
          · rw [setEvictable_keys _ f true r1 hr1]
            exact h.store_nonneg
          · rw [setEvictable_keys _ f true r1 hr1]
            exact h.store_nodup
          · exact pin_nonneg_set s f _ h.pin_nonneg
              (by show (0 : Int) ≤ (getPage s f).pin_count - 1; omega)
          · refine pinned_not_ev_generic s _ f h.pinned_not_ev ?_ ?_ ?_ ?_
            · intro g hg0 hgne
              exact getPage_set_ne_nonneg s f g _ hf hg0 hgne
            · refine Or.inr ?_
              rcases getPage_update_setPage_or s f ⟨(getPage s f).page_id, (getPage s f).pin_count - 1, d || (getPage s f).is_dirty, (getPage s f).data⟩ r1 with hc | hc
              · rw [hc]
                show (getPage s f).pin_count - 1 ≤ 0
                omega
              · rw [hc]
                exact le_refl 0
            · intro g hg0 hgne
              exact setEvictable_lookup_ne _ f true r1 g hgne hr1
            · rw [setEvictable_keys _ f true r1 hr1]
              exact h.store_nonneg
      · rename_i hz
        cases hok
        refine ⟨h.free_nonneg, h.pt_nonneg, h.store_nonneg, h.store_nodup, ?_, ?_⟩
        · exact pin_nonneg_set s f _ h.pin_nonneg
            (by show (0 : Int) ≤ (getPage s f).pin_count - 1; omega)
        · refine pinned_not_ev_generic s _ f h.pinned_not_ev ?_ ?_ ?_ ?_
          · intro g hg0 hgne
            exact getPage_set_ne_nonneg s f g _ hf hg0 hgne
          · exact Or.inl (h.pinned_not_ev f (by omega))
          · intro g hg0 hgne
            rfl
          · exact h.store_nonneg

/-- The or-version of getPage after a frame write under a free-list
update. -/
theorem getPage_free_setPage_or (s : BufferPoolManager) (f : Int) (p : Page)
    (fl : List Int) :
    getPage ⟨(setPage s f p).pool_size, (setPage s f p).pages, (setPage s f p).replacer,
      (setPage s f p).page_table, fl, (setPage s f p).next_page_id, (setPage s f p).disk⟩ f
      = p ∨
    getPage ⟨(setPage s f p).pool_size, (setPage s f p).pages, (setPage s f p).replacer,
      (setPage s f p).page_table, fl, (setPage s f p).next_page_id, (setPage s f p).disk⟩ f
      = Page.init := by
  by_cases hlen : f.toNat < s.pages.length
  · exact Or.inl (getPage_free_setPage s f p fl hlen)
  · refine Or.inr ?_
    unfold getPage setPage
    dsimp only
    rw [set_oob s.pages f.toNat p (by omega)]
    exact getD_oob s.pages f.toNat Page.init (by omega)

theorem Inv_deletePage (s : BufferPoolManager) (pid : Int) (b : Bool)
    (s2 : BufferPoolManager) (h : Inv s) (hok : s.deletePage pid = .ok (b, s2)) : Inv s2 := by
  unfold BufferPoolManager.deletePage at hok
  split at hok
  · cases hok
    exact h
  · rename_i f hlk
    have hf : (0 : Int) ≤ f := h.pt_nonneg (pid, f) (alookup_mem _ _ _ hlk)
    dsimp only at hok
    split at hok
    · cases hok
      exact h
    · rename_i hpin
      split at hok
      · cases hok
      · rename_i r1 hr1
        cases hok
        have hkeys1 : ∀ k ∈ r1.node_store.map Prod.fst, 0 ≤ k := by
          intro k hk
          obtain ⟨e, he, hke⟩ := List.mem_map.mp hk
          obtain ⟨g2, m⟩ := e
          subst hke
          exact h.store_nonneg _
            (List.mem_map_of_mem _ (remove_store_sub s.replacer f r1 hr1 g2 m he))
        refine ⟨?_, ?_, ?_, ?_, ?_, ?_⟩
        · intro x hx
          rcases List.mem_append.mp hx with hx | hx
          · exact h.free_nonneg x hx
          · rw [List.mem_singleton.mp hx]
            exact hf
        · intro e he
          exact h.pt_nonneg e (mem_aerase s.page_table pid e.1 e.2 he)
        · exact hkeys1
        · exact List.Nodup.sublist (remove_keys_sublist s.replacer f r1 hr1) h.store_nodup
        · exact pin_nonneg_set { s with replacer := r1, page_table := aerase s.page_table pid } f ⟨INVALID_PAGE_ID, (getPage s f).pin_count, false, 0⟩ h.pin_nonneg (h.pin_nonneg f)
        · refine pinned_not_ev_generic s _ f h.pinned_not_ev ?_ ?_ ?_ hkeys1
          · intro g hg0 hgne
            exact getPage_set_ne_nonneg { s with replacer := r1, page_table := aerase s.page_table pid } f g ⟨INVALID_PAGE_ID, (getPage s f).pin_count, false, 0⟩ hf hg0 hgne
          · refine Or.inr ?_
            rcases getPage_free_setPage_or { s with replacer := r1, page_table := aerase s.page_table pid } f ⟨INVALID_PAGE_ID, (getPage s f).pin_count, false, 0⟩ ((setPage { s with replacer := r1, page_table := aerase s.page_table pid } f ⟨INVALID_PAGE_ID, (getPage s f).pin_count, false, 0⟩).free_list ++ [f]) with hc | hc
            · rw [hc]
              show (getPage s f).pin_count ≤ 0
              omega
            · rw [hc]
              exact le_refl 0
          · intro g hg0 hgne
            exact remove_lookup_ne s.replacer f r1 g hgne hr1

theorem Inv_takeFrame (s : BufferPoolManager) (f : Int) (s1 : BufferPoolManager)
    (h : Inv s) (hok : takeFrame s = some (f, s1)) : Inv s1 ∧ 0 ≤ f := by
  unfold takeFrame at hok
  split at hok
  · rename_i g rest hfl
    cases hok
    refine ⟨⟨?_, h.pt_nonneg, h.store_nonneg, h.store_nodup, h.pin_nonneg, h.pinned_not_ev⟩, ?_⟩
    · intro x hx
      refine h.free_nonneg x ?_
      rw [hfl]
      exact List.mem_cons_of_mem _ hx
    · refine h.free_nonneg f ?_
      rw [hfl]
      exact List.mem_cons_self _ _
  · split at hok
    · cases hok
    · rename_i f r2 hev
      cases hok
      obtain ⟨n, hnmem, hnev⟩ := evict_victim_evictable s.replacer f r2 hev
      have hgf : (0 : Int) ≤ f := h.store_nonneg f (List.mem_map_of_mem Prod.fst hnmem)
      have hes := evict_some_state s.replacer f r2 hev
      have hevg : evictableB s.replacer f = true := by
        unfold evictableB
        rw [mem_alookup_of_nodup s.replacer.node_store f n h.store_nodup hnmem]
        exact hnev
      have hpin : (getPage s f).pin_count ≤ 0 := by
        by_cases hp : 0 < (getPage s f).pin_count
        · have h2 := h.pinned_not_ev f hp
          rw [hevg] at h2
          cases h2
        · omega
      have hnn : ∀ k ∈ r2.node_store.map Prod.fst, 0 ≤ k := by
        intro k hk
        rw [hes.1] at hk
        exact h.store_nonneg k ((keys_aerase_sublist s.replacer.node_store f).subset hk)
      have hlkne : ∀ g2 : Int, g2 ≠ f →
          alookup r2.node_store g2 = alookup s.replacer.node_store g2 := by
        intro g2 hne
        have h2 := alookup_aerase_ne s.replacer.node_store f g2 hne
        rw [← hes.1] at h2
        exact h2
      have hnodup2 : (r2.node_store.map Prod.fst).Nodup := by
        rw [hes.1]
        exact List.Nodup.sublist (keys_aerase_sublist s.replacer.node_store f) h.store_nodup
      have hptnn : ∀ e ∈ aerase s.page_table (getPage s f).page_id, (0 : Int) ≤ e.2 := by
        intro e he
        exact h.pt_nonneg e (mem_aerase s.page_table (getPage s f).page_id e.1 e.2 he)
      refine ⟨?_, hgf⟩
      split
      · exact ⟨h.free_nonneg, hptnn, hnn, hnodup2, h.pin_nonneg,
          pinned_not_ev_generic s _ f h.pinned_not_ev (fun g2 _ _ => rfl)
            (Or.inr hpin) (fun g2 _ hne => hlkne g2 hne) hnn⟩
      · exact ⟨h.free_nonneg, hptnn, hnn, hnodup2, h.pin_nonneg,
          pinned_not_ev_generic s _ f h.pinned_not_ev (fun g2 _ _ => rfl)
            (Or.inr hpin) (fun g2 _ hne => hlkne g2 hne) hnn⟩

theorem Inv_newPageInstall (s1 : BufferPoolManager) (f : Int) (v : Option Int)
    (s2 : BufferPoolManager) (h : Inv s1) (hf : 0 ≤ f)
    (hok : newPageInstall s1 f = .ok (v, s2)) : Inv s2 := by
  unfold newPageInstall at hok
  dsimp only at hok
  split at hok
  · cases hok
  · rename_i r1 hr1
    split at hok
    · cases hok
    · rename_i r2 hr2
      cases hok
      have hk1 := setEvictable_keys _ f false r1 hr1
      have hkeys2 : ∀ k ∈ r2.node_store.map Prod.fst, 0 ≤ k := by
        intro k hk
        rcases recordAccess_keys r1 f r2 hr2 with hc | hc
        · rw [hc, hk1] at hk
          exact h.store_nonneg k hk
        · rw [hc, hk1] at hk
          rcases List.mem_append.mp hk with hk2 | hk2
          · exact h.store_nonneg k hk2
          · rw [List.mem_singleton.mp hk2]
            exact hf
      refine ⟨h.free_nonneg, ?_, hkeys2, ?_, ?_, ?_⟩
      · intro e he
        rcases mem_aset _ s1.next_page_id e.1 f e.2 he with h2 | ⟨h2, h3⟩
        · exact h.pt_nonneg e h2
        · rw [h3]
          exact hf
      · refine recordAccess_nodup r1 f r2 ?_ hr2
        rw [hk1]
        exact h.store_nodup
      · exact pin_nonneg_set { s1 with next_page_id := s1.next_page_id + 1 } f ⟨s1.next_page_id, 1, false, 0⟩ h.pin_nonneg (by show (0 : Int) ≤ 1; decide)
      · refine pinned_not_ev_generic s1 _ f h.pinned_not_ev ?_ ?_ ?_ hkeys2
        · intro g hg0 hgne
          exact getPage_set_ne_nonneg { s1 with next_page_id := s1.next_page_id + 1 } f g ⟨s1.next_page_id, 1, false, 0⟩ hf hg0 hgne
        · refine Or.inl ?_
          rw [show evictableB r2 f = evictableB r1 f from recordAccess_ev_self r1 f r2 hr2]
          exact setEvictable_false_self _ f r1 hr1
        · intro g hg0 hgne
          rw [show alookup r2.node_store g = alookup r1.node_store g from
            recordAccess_lookup_ne r1 f r2 g hgne hr2]
          exact setEvictable_lookup_ne _ f false r1 g hgne hr1

theorem Inv_newPage (s : BufferPoolManager) (v : Option Int) (s2 : BufferPoolManager)
    (h : Inv s) (hok : s.newPage = .ok (v, s2)) : Inv s2 := by
  unfold BufferPoolManager.newPage at hok
  split at hok
  · cases hok
    exact h
  · rename_i f s1 htf
    obtain ⟨h1, hf⟩ := Inv_takeFrame s f s1 h htf
    exact Inv_newPageInstall s1 f v s2 h1 hf hok

theorem Inv_fetchPage (s : BufferPoolManager) (pid : Int) (v : Option Int)
    (s2 : BufferPoolManager) (h : Inv s) (hok : s.fetchPage pid = .ok (v, s2)) : Inv s2 := by
  unfold BufferPoolManager.fetchPage at hok
  split at hok
  · rename_i f hlk
    have hf : (0 : Int) ≤ f := h.pt_nonneg (pid, f) (alookup_mem _ _ _ hlk)
    dsimp only at hok
    split at hok
    · cases hok
    · rename_i r1 hr1
      split at hok
      · cases hok
      · rename_i r2 hr2
        cases hok
        have hr1keys : r1.node_store.map Prod.fst = s.replacer.node_store.map Prod.fst := by
          split at hr1
          · exact setEvictable_keys _ f false r1 hr1
          · cases hr1
            rfl
        have hr1ne : ∀ g : Int, g ≠ f →
            alookup r1.node_store g = alookup s.replacer.node_store g := by
          intro g hg
          split at hr1
          · exact setEvictable_lookup_ne _ f false r1 g hg hr1
          · cases hr1
            rfl
        have hr1self : evictableB r1 f = false := by
          split at hr1
          · exact setEvictable_false_self _ f r1 hr1
          · rename_i hpz
            cases hr1
            refine h.pinned_not_ev f ?_
            have h2 := h.pin_nonneg f
            omega
        have hkeys2 : ∀ k ∈ r2.node_store.map Prod.fst, 0 ≤ k := by
          intro k hk
          rcases recordAccess_keys r1 f r2 hr2 with hc | hc
          · rw [hc, hr1keys] at hk
            exact h.store_nonneg k hk
          · rw [hc, hr1keys] at hk
            rcases List.mem_append.mp hk with hk2 | hk2
            · exact h.store_nonneg k hk2
            · rw [List.mem_singleton.mp hk2]
              exact hf
        refine ⟨h.free_nonneg, h.pt_nonneg, hkeys2, ?_, ?_, ?_⟩
        · refine recordAccess_nodup r1 f r2 ?_ hr2
          rw [hr1keys]
          exact h.store_nodup
        · exact pin_nonneg_set { s with replacer := r1 } f ⟨(getPage s f).page_id, (getPage s f).pin_count + 1, (getPage s f).is_dirty, (getPage s f).data⟩ h.pin_nonneg (by show (0 : Int) ≤ (getPage s f).pin_count + 1; have h2 := h.pin_nonneg f; omega)
        · refine pinned_not_ev_generic s _ f h.pinned_not_ev ?_ ?_ ?_ hkeys2
          · intro g hg0 hgne
            exact getPage_set_ne_nonneg { s with replacer := r1 } f g ⟨(getPage s f).page_id, (getPage s f).pin_count + 1, (getPage s f).is_dirty, (getPage s f).data⟩ hf hg0 hgne
          · refine Or.inl ?_
            rw [show evictableB r2 f = evictableB r1 f from recordAccess_ev_self r1 f r2 hr2]
            exact hr1self
          · intro g hg0 hgne
            rw [show alookup r2.node_store g = alookup r1.node_store g from
              recordAccess_lookup_ne r1 f r2 g hgne hr2]
            exact hr1ne g hgne
  · rename_i hlk
    split at hok
    · cases hok
      exact h
    · rename_i f s1 htf
      obtain ⟨h1, hf⟩ := Inv_takeFrame s f s1 h htf
      dsimp only at hok
      split at hok
      · cases hok
      · rename_i r1 hr1
        split at hok
        · cases hok
        · rename_i r2 hr2
          cases hok
          have hkeys2 : ∀ k ∈ r2.node_store.map Prod.fst, 0 ≤ k := by
            intro k hk
            rw [setEvictable_keys r1 f false r2 hr2] at hk
            rcases recordAccess_keys _ f r1 hr1 with hc | hc
            · rw [hc] at hk
              exact h1.store_nonneg k hk
            · rw [hc] at hk
              rcases List.mem_append.mp hk with hk2 | hk2
              · exact h1.store_nonneg k hk2
              · rw [List.mem_singleton.mp hk2]
                exact hf
          have hp1 := pin_nonneg_set s1 f ⟨(getPage s1 f).page_id, (getPage s1 f).pin_count, (getPage s1 f).is_dirty, 0⟩ h1.pin_nonneg (h1.pin_nonneg f)
          have hp2 := pin_nonneg_set (setPage s1 f ⟨(getPage s1 f).page_id, (getPage s1 f).pin_count, (getPage s1 f).is_dirty, 0⟩) f ⟨(getPage (setPage s1 f ⟨(getPage s1 f).page_id, (getPage s1 f).pin_count, (getPage s1 f).is_dirty, 0⟩) f).page_id, (getPage (setPage s1 f ⟨(getPage s1 f).page_id, (getPage s1 f).pin_count, (getPage s1 f).is_dirty, 0⟩) f).pin_count, (getPage (setPage s1 f ⟨(getPage s1 f).page_id, (getPage s1 f).pin_count, (getPage s1 f).is_dirty, 0⟩) f).is_dirty, (alookup (setPage s1 f ⟨(getPage s1 f).page_id, (getPage s1 f).pin_count, (getPage s1 f).is_dirty, 0⟩).disk pid).getD 0⟩ hp1 (hp1 f)
          refine ⟨h1.free_nonneg, ?_, hkeys2, ?_, ?_, ?_⟩
          · intro e he
            rcases mem_aset _ pid e.1 f e.2 he with h2 | ⟨h2, h3⟩
            · exact h1.pt_nonneg e h2
            · rw [h3]
              exact hf
          · rw [setEvictable_keys r1 f false r2 hr2]
            refine recordAccess_nodup _ f r1 h1.store_nodup hr1
          · refine pin_nonneg_set _ f _ hp2 (by show (0 : Int) ≤ 1; decide)
          · refine pinned_not_ev_generic s1 _ f h1.pinned_not_ev ?_ ?_ ?_ hkeys2
            · intro g hg0 hgne
              refine (getPage_setPage_ne _ f g _ (by omega)).trans
                ((getPage_setPage_ne _ f g _ (by omega)).trans
                  (getPage_setPage_ne s1 f g _ (by omega)))
            · exact Or.inl (setEvictable_false_self r1 f r2 hr2)
            · intro g hg0 hgne
              rw [show alookup r2.node_store g = alookup r1.node_store g from
                setEvictable_lookup_ne r1 f false r2 g hgne hr2]
              exact recordAccess_lookup_ne _ f r1 g hgne hr1

theorem Inv_applyOp (s : BufferPoolManager) (op : Op) (s2 : BufferPoolManager)
    (h : Inv s) (hok : applyOp s op = .ok s2) : Inv s2 := by
  cases op with
  | newPage =>
      obtain ⟨a, ha⟩ := map_snd_ok _ s2 hok
      exact Inv_newPage s a s2 h ha
  | fetchPage pid =>
      obtain ⟨a, ha⟩ := map_snd_ok _ s2 hok
      exact Inv_fetchPage s pid a s2 h ha
  | unpinPage pid d =>
      obtain ⟨a, ha⟩ := map_snd_ok _ s2 hok
      exact Inv_unpinPage s pid d a s2 h ha
  | flushPage pid =>
      cases hok
      exact Inv_flushPage s pid h
  | deletePage pid =>
      obtain ⟨a, ha⟩ := map_snd_ok _ s2 hok
      exact Inv_deletePage s pid a s2 h ha
  | flushAll =>
      cases hok
      exact Inv_flushAll s h

theorem getD_replicate {α : Type} (n : Nat) (a : α) (i : Nat) :
    (List.replicate n a).getD i a = a := by
  induction n generalizing i with
  | zero => rfl
  | succ m ih =>
      cases i with
      | zero => rfl
      | succ j => exact ih j

theorem Inv_init (ps k : Nat) : Inv (BufferPoolManager.mkInit ps k) := by
  refine ⟨?_, ?_, ?_, ?_, ?_, ?_⟩
  · intro f hf
    unfold BufferPoolManager.mkInit at hf
    dsimp only at hf
    obtain ⟨i, hi1, hi2⟩ := List.mem_map.mp hf
    rw [← hi2]
    exact Int.natCast_nonneg i
  · intro e he
    simp [BufferPoolManager.mkInit] at he
  · intro k2 hk2
    simp [BufferPoolManager.mkInit, LRUKReplacer.mkInit] at hk2
  · simp [BufferPoolManager.mkInit, LRUKReplacer.mkInit]
  · intro f
    unfold getPage BufferPoolManager.mkInit
    dsimp only
    rw [getD_replicate ps Page.init f.toNat]
    exact le_refl 0
  · intro f hf2
    exfalso
    unfold getPage BufferPoolManager.mkInit at hf2
    dsimp only at hf2
    rw [getD_replicate ps Page.init f.toNat] at hf2
    exact absurd hf2 (by decide)

theorem Inv_reachable (ps k : Nat) (s : BufferPoolManager)
    (h : Reachable ps k s) : Inv s := by
  induction h with
  | init => exact Inv_init ps k
  | step h1 h2 ih => exact Inv_applyOp _ _ _ ih h2

/-- C3. In every state reachable from a freshly constructed pool by
successful public buffer pool manager operations, every frame whose pin
count is positive is not marked evictable in the replacer, and Evict
never returns such a frame. -/
theorem pinned_never_evicted (ps k : Nat) (s : BufferPoolManager)
    (h : Reachable ps k s) :
    (∀ f : Int, 0 < (getPage s f).pin_count → evictableB s.replacer f = false) ∧
    (∀ f r2, s.replacer.evict = (some f, r2) → ¬ 0 < (getPage s f).pin_count) := by
  have hinv := Inv_reachable ps k s h
  refine ⟨hinv.pinned_not_ev, ?_⟩
  intro f r2 hev hpin
  obtain ⟨n, hmem, hnev⟩ := evict_victim_evictable s.replacer f r2 hev
  have hfalse := hinv.pinned_not_ev f hpin
  unfold evictableB at hfalse
  rw [mem_alookup_of_nodup _ _ _ hinv.store_nodup hmem] at hfalse
  dsimp only at hfalse
  rw [hnev] at hfalse
  cases hfalse

/-- Witness of the reachability theorem at the one-frame pool after one
NewPage step (page 0 pinned in frame 0). -/
theorem pinned_never_evicted_witness :
    (∀ f : Int, 0 < (getPage poolOnePage f).pin_count →
      evictableB poolOnePage.replacer f = false) ∧
    (∀ f r2, poolOnePage.replacer.evict = (some f, r2) →
      ¬ 0 < (getPage poolOnePage f).pin_count) :=
  pinned_never_evicted 1 2 poolOnePage (Reachable.step Reachable.init
    (show applyOp (BufferPoolManager.mkInit 1 2) Op.newPage = .ok poolOnePage from rfl))

end BusTub
